import Mathlib

/-!
# Verification of the `HeapAllocator` sub-allocator of D3D12MiniPathtracer

This file gives a shallow embedding of the best-fit sub-allocator implemented
in `src/HeapManager.cpp` (class `HeapAllocator`) together with the thin
offset-bias layer of `HeapManager`, and proves the properties stated in the
specification about them.

Modelling conventions:
* `uint32_t` values are `Nat` with an explicit `% U32` at every point where
  the C++ code performs 32-bit arithmetic that can wrap (casts, additions of
  offsets/sizes, the `+ RESERVED_OFFSET` bias, the `(uint32_t)-1` sentinel).
* `std::list<Block>` is a `List Block`; list iterators (which are stable
  across insertion and erasure of other nodes) are modelled by giving every
  block a unique numeric `id`, with a `nextId` counter in the state supplying
  fresh ids.  `AllocationInfo::blockIt` therefore stores a block id.
* `std::multimap<uint32_t, iterator> m_freeBlocksBySizeMap` is a list of
  `(size, id)` pairs kept sorted by size; `emplace` inserts at the upper
  bound of the equal-size range (the position `std::multimap::emplace`
  uses), and `lower_bound` returns the first entry whose key is ≥ the query.
* `std::map` (`m_blockByOffset`, `m_allocations`) is a key-sorted
  association list with insert-or-overwrite.
* `HeapAllocationStats::fragmentationRatio` is a `float` and is not modelled;
  none of the verified statements concern it.  The `size_t` accumulation of
  `usedSize` wraps at `2^64` and the model keeps that reduction.
-/

def U32 : Nat := 4294967296

def U64 : Nat := 18446744073709551616

/-- Modelled from the spec: `AlignSize` (declared in the repository's
`Helper.h`, which is not part of the available sources) rounds `size` up to
the next multiple of `alignment`; "total size is computed as
`numElements * elementSize` rounded up to `alignment`". -/
def AlignSize (size alignment : Nat) : Nat :=
  ((size + alignment - 1) / alignment) * alignment

/-- `struct Block { uint32_t offset; uint32_t size; bool isFree; }` plus the
`id` modelling the identity of its `std::list` node. -/
structure Block where
  id : Nat
  offset : Nat
  size : Nat
  isFree : Bool
deriving DecidableEq

/-- `struct AllocationInfo { uint32_t offset; uint32_t size; iterator blockIt; }` -/
structure AllocationInfo where
  offset : Nat
  size : Nat
  blockId : Nat
deriving DecidableEq

/-- The state of a `HeapAllocator` object: configuration plus the four
containers. -/
structure HeapState where
  numElements : Nat
  elementSize : Nat
  alignment : Nat
  alignedSize : Nat
  blocks : List Block
  blockByOffset : List (Nat × Nat)
  freeMap : List (Nat × Nat)
  allocations : List (Nat × AllocationInfo)
  nextId : Nat
deriving DecidableEq

/-- `HeapAllocationStats` (without the unmodelled `float fragmentationRatio`). -/
structure HeapAllocationStats where
  totalSize : Nat
  usedSize : Nat
  largestFreeBlock : Nat
  numAllocations : Nat
  numFreeBlocks : Nat
deriving DecidableEq

namespace HeapAllocator

/-- First block with the given id (the dereference of a stored iterator). -/
def findBlock (blocks : List Block) (id : Nat) : Option Block :=
  match blocks with
  | [] => none
  | b :: rest => if b.id = id then some b else findBlock rest id

/-- Write `isFree` through a stored iterator (`blockIt->isFree = v`). -/
def setIsFree (id : Nat) (v : Bool) (blocks : List Block) : List Block :=
  match blocks with
  | [] => []
  | b :: rest => if b.id = id then { b with isFree := v } :: rest else b :: setIsFree id v rest

/-- `SplitBlock`: shrink the block with the given id in place to `size` and
insert a new free block for the remainder right after it.  The new block gets
offset `blockIt->offset + size` and size `blockIt->size - size` (both in
32-bit arithmetic), and the fresh id `newId`. -/
def SplitBlock (id size newId : Nat) (blocks : List Block) : List Block :=
  match blocks with
  | [] => []
  | b :: rest =>
    if b.id = id then
      { b with size := size } ::
        ⟨newId, (b.offset + size) % U32, b.size - size, true⟩ :: rest
    else b :: SplitBlock id size newId rest

/-- `m_freeBlocksBySizeMap.lower_bound(size)`: first entry with key ≥ `size`
in the size-sorted multimap. -/
def lowerBound (freeMap : List (Nat × Nat)) (size : Nat) : Option (Nat × Nat) :=
  match freeMap with
  | [] => none
  | e :: rest => if size ≤ e.1 then some e else lowerBound rest size

/-- `m_freeBlocksBySizeMap.emplace(size, blockIt)`: insert at the upper bound
of the equal-size range, keeping the list sorted by size. -/
def emplaceFree (freeMap : List (Nat × Nat)) (size id : Nat) : List (Nat × Nat) :=
  match freeMap with
  | [] => [(size, id)]
  | e :: rest => if size < e.1 then (size, id) :: e :: rest else e :: emplaceFree rest size id

/-- `RemoveFromFreeMap(blockIt)`: erase the (unique) entry in the equal-range
of `size` that points at the given block; no-op when absent. -/
def RemoveFromFreeMap (freeMap : List (Nat × Nat)) (size id : Nat) : List (Nat × Nat) :=
  match freeMap with
  | [] => []
  | e :: rest =>
    if e.1 = size ∧ e.2 = id then rest else e :: RemoveFromFreeMap rest size id

/-- `std::map` lookup (`find`). -/
def mapFind (m : List (Nat × AllocationInfo)) (key : Nat) : Option AllocationInfo :=
  match m with
  | [] => none
  | e :: rest => if e.1 = key then some e.2 else mapFind rest key

/-- `std::map` insert-or-overwrite (`operator[]` followed by assignment),
keeping the list sorted by key. -/
def mapInsert (m : List (Nat × AllocationInfo)) (key : Nat) (v : AllocationInfo) :
    List (Nat × AllocationInfo) :=
  match m with
  | [] => [(key, v)]
  | e :: rest =>
    if key < e.1 then (key, v) :: e :: rest
    else if key = e.1 then (key, v) :: rest
    else e :: mapInsert rest key v

/-- `std::map::erase(key)`. -/
def mapErase (m : List (Nat × AllocationInfo)) (key : Nat) : List (Nat × AllocationInfo) :=
  match m with
  | [] => []
  | e :: rest => if e.1 = key then rest else e :: mapErase rest key

/-- `m_blockByOffset` insert-or-overwrite. -/
def offInsert (m : List (Nat × Nat)) (key v : Nat) : List (Nat × Nat) :=
  match m with
  | [] => [(key, v)]
  | e :: rest =>
    if key < e.1 then (key, v) :: e :: rest
    else if key = e.1 then (key, v) :: rest
    else e :: offInsert rest key v

/-- `m_blockByOffset.erase(key)`. -/
def offErase (m : List (Nat × Nat)) (key : Nat) : List (Nat × Nat) :=
  match m with
  | [] => []
  | e :: rest => if e.1 = key then rest else e :: offErase rest key

/-- The constructor
`HeapAllocator(numElements, elementSize, alignment, ...)`: the total size is
the 64-bit product `numElements * elementSize` aligned up and cast to
`uint32_t`, and the block list starts as one free block covering everything. -/
def initState (numElements0 elementSize0 alignment0 : Nat) : HeapState :=
  let numElements := numElements0 % U32
  let elementSize := elementSize0 % U32
  let alignment := alignment0 % U32
  let alignedSize := AlignSize (numElements * elementSize) alignment % U32
  { numElements := numElements
    elementSize := elementSize
    alignment := alignment
    alignedSize := alignedSize
    blocks := [⟨0, 0, alignedSize, true⟩]
    blockByOffset := [(0, 0)]
    freeMap := [(alignedSize, 0)]
    allocations := []
    nextId := 1 }

/-- Result of `CoalesceAdjacentFreeBlocks`: the new block list, the
`(size, id)` entries removed from the free map (in removal order), the
offsets erased from `m_blockByOffset`, and the entry finally emplaced into
the free map. -/
structure CoalResult where
  blocks : List Block
  removed : List (Nat × Nat)
  removedOffsets : List Nat
  inserted : Option (Nat × Nat)
deriving DecidableEq

/-- The "try to merge with next block" half of `CoalesceAdjacentFreeBlocks`,
starting from the (possibly already prev-merged) block `cur` whose suffix in
the block list is `rest`. -/
def mergeNext (cur : Block) (rest : List Block) : CoalResult :=
  match rest with
  | n :: rest2 =>
    if n.isFree && ((cur.offset + cur.size) % U32 == n.offset) then
      let m : Block := { cur with size := (cur.size + n.size) % U32 }
      ⟨m :: rest2, [(n.size, n.id)], [n.offset], some (m.size, m.id)⟩
    else ⟨cur :: rest, [], [], some (cur.size, cur.id)⟩
  | [] => ⟨[cur], [], [], some (cur.size, cur.id)⟩

/-- `CoalesceAdjacentFreeBlocks(freedBlockIt)`: try to merge with the
previous block (when the freed block is not the first), then with the next,
then emplace the resulting block into the free map.  The freed block is
located by its id; the prefix before it plays the role of `std::prev`. -/
def CoalesceAdjacentFreeBlocks (id : Nat) (blocks : List Block) : CoalResult :=
  let L1 := blocks.takeWhile (fun x => x.id != id)
  match blocks.dropWhile (fun x => x.id != id) with
  | [] => ⟨blocks, [], [], none⟩
  | b :: L2 =>
    match L1.getLast? with
    | some p =>
      if p.isFree && ((p.offset + p.size) % U32 == b.offset) then
        let m : Block := { p with size := (p.size + b.size) % U32 }
        let r := mergeNext m L2
        ⟨L1.dropLast ++ r.blocks, (p.size, p.id) :: r.removed,
          b.offset :: r.removedOffsets, r.inserted⟩
      else
        let r := mergeNext b L2
        ⟨L1 ++ r.blocks, r.removed, r.removedOffsets, r.inserted⟩
    | none => mergeNext b L2

/-- The body of `Allocate` after `FindBestFitBlock` has returned the block
`b` (the entry's iterator): remove it from the free map, split when strictly
larger than the aligned request, mark it allocated and record the
`AllocationInfo`. -/
def allocateFound (s : HeapState) (alignedSize : Nat) (b : Block) : Nat × HeapState :=
  let allocOffset := b.offset
  let fm := RemoveFromFreeMap s.freeMap b.size b.id
  let doSplit := alignedSize < b.size
  let blocks1 := if doSplit then SplitBlock b.id alignedSize s.nextId s.blocks else s.blocks
  let fm1 := if doSplit then emplaceFree fm (b.size - alignedSize) s.nextId else fm
  let bbo1 :=
    if doSplit then offInsert s.blockByOffset ((b.offset + alignedSize) % U32) s.nextId
    else s.blockByOffset
  let blocks2 := setIsFree b.id false blocks1
  let allocs := mapInsert s.allocations allocOffset ⟨allocOffset, alignedSize, b.id⟩
  (allocOffset,
    { s with
      blocks := blocks2
      freeMap := fm1
      blockByOffset := bbo1
      allocations := allocs
      nextId := if doSplit then s.nextId + 1 else s.nextId })

/-- `uint32_t Allocate(uint32_t allocationSize)`: align the request, find the
best-fit free block through the size-sorted map, and either fail with the
`(uint32_t)-1` sentinel (state untouched) or allocate from the found block. -/
def Allocate (s : HeapState) (allocationSize0 : Nat) : Nat × HeapState :=
  let allocationSize := allocationSize0 % U32
  let alignedSize := AlignSize allocationSize s.alignment % U32
  match lowerBound s.freeMap alignedSize with
  | none => (U32 - 1, s)
  | some e =>
    -- the multimap stores valid iterators, so under the allocator invariant
    -- the block is always found; the fallback mirrors the failure return
    match findBlock s.blocks e.2 with
    | none => (U32 - 1, s)
    | some b => allocateFound s alignedSize b

/-- Apply the free-map edits recorded by `CoalesceAdjacentFreeBlocks` to the
free-by-size map: the `RemoveFromFreeMap` calls in order, then the final
`emplace`. -/
def applyCoal (r : CoalResult) (fm : List (Nat × Nat)) : List (Nat × Nat) :=
  let fm1 := r.removed.foldl (fun m e => RemoveFromFreeMap m e.1 e.2) fm
  match r.inserted with
  | some e => emplaceFree fm1 e.1 e.2
  | none => fm1

/-- The body of `Free` after the allocation has been found: mark the block
free, drop the allocation record, coalesce with adjacent free blocks and
update the maps accordingly. -/
def freeFound (s : HeapState) (offset : Nat) (info : AllocationInfo) : HeapState :=
  let blocks1 := setIsFree info.blockId true s.blocks
  let r := CoalesceAdjacentFreeBlocks info.blockId blocks1
  { s with
    blocks := r.blocks
    freeMap := applyCoal r s.freeMap
    blockByOffset := r.removedOffsets.foldl offErase s.blockByOffset
    allocations := mapErase s.allocations offset }

/-- `void Free(uint32_t offset)`: the `(uint32_t)-1` sentinel is a guaranteed
no-op; an offset with no allocation record is the `FreeOfUnknownOffset`
error, which logs/asserts and leaves the state unchanged; otherwise free and
coalesce. -/
def Free (s : HeapState) (offset0 : Nat) : HeapState :=
  let offset := offset0 % U32
  if offset = U32 - 1 then s
  else
    match mapFind s.allocations offset with
    | none => s
    | some info => freeFound s offset info

/-- `GetStats`: one scan of the block list.  `totalSize` is the 32-bit
product `m_numElements * m_elementSize` (widened to `size_t` only after the
multiplication). -/
def GetStats (s : HeapState) : HeapAllocationStats :=
  { totalSize := s.numElements * s.elementSize % U32
    usedSize := ((s.blocks.filter (fun b => !b.isFree)).map Block.size).sum % U64
    largestFreeBlock := ((s.blocks.filter (fun b => b.isFree)).map Block.size).foldl Nat.max 0
    numAllocations := s.allocations.length
    numFreeBlocks := (s.blocks.filter (fun b => b.isFree)).length }

end HeapAllocator

namespace HeapManager

/-- `const uint32_t RESERVED_OFFSET = 1;` -/
def RESERVED_OFFSET : Nat := 1

/-- `HeapManager::Allocate`: forward to the allocator and add the reserved
bias in 32-bit arithmetic. -/
def Allocate (s : HeapState) (allocationSize : Nat) : Nat × HeapState :=
  let r := HeapAllocator.Allocate s allocationSize
  ((r.1 + RESERVED_OFFSET) % U32, r.2)

/-- `HeapManager::Free`: subtract the reserved bias in 32-bit arithmetic and
forward to the allocator. -/
def Free (s : HeapState) (offset : Nat) : HeapState :=
  HeapAllocator.Free s ((offset % U32 + (U32 - RESERVED_OFFSET)) % U32)

/-- `GetGPUVirtualAddress(offset)`: 0 is the null offset; pointers are
modelled as `Nat` with 0 as `nullptr`, the device address is 64-bit. -/
def GetGPUVirtualAddress (gpuVirtualAddress : Nat) (offset0 : Nat) : Nat :=
  let offset := offset0 % U32
  if offset = 0 ∨ offset < RESERVED_OFFSET ∨ gpuVirtualAddress % U64 = 0 then 0
  else (gpuVirtualAddress % U64 + (offset - RESERVED_OFFSET)) % U64

/-- `GetMappedPtr(offset)`: 0 is the null offset and the null pointer. -/
def GetMappedPtr (mappedPtr : Nat) (offset0 : Nat) : Nat :=
  let offset := offset0 % U32
  if offset = 0 ∨ offset < RESERVED_OFFSET ∨ mappedPtr = 0 then 0
  else mappedPtr + (offset - RESERVED_OFFSET)

end HeapManager

/-- One external operation on a `HeapAllocator` instance. -/
inductive HeapOp where
  | alloc (n : Nat)
  | free (offset : Nat)
deriving DecidableEq

/-- Apply one operation to the allocator state. -/
def heapStep (s : HeapState) (op : HeapOp) : HeapState :=
  match op with
  | .alloc n => (HeapAllocator.Allocate s n).2
  | .free offset => HeapAllocator.Free s offset

/-- The allocator state reached from a freshly initialized allocator by a
sequence of allocate/free calls. -/
def runHeap (numElements elementSize alignment : Nat) (ops : List HeapOp) : HeapState :=
  ops.foldl heapStep (HeapAllocator.initState numElements elementSize alignment)

namespace HeapAllocator

/-- `blocks` partitions `[start, total)`: the first block sits at `start`,
blocks are contiguous, and the last one ends at `total`. -/
def isPart (start : Nat) (blocks : List Block) (total : Nat) : Bool :=
  match blocks with
  | [] => start == total
  | b :: rest => (b.offset == start) && isPart (start + b.size) rest total

def sizeSum (l : List Block) : Nat := (l.map Block.size).sum

/-- The relation "not both free" between consecutive blocks. -/
def adjOK (a b : Block) : Prop := ¬(a.isFree = true ∧ b.isFree = true)

instance : DecidableRel adjOK := fun a b => by unfold adjOK; infer_instance

/-- No two adjacent blocks in the sequence are both free. -/
def NoAdjacentFree (l : List Block) : Prop := List.Chain' adjOK l

/-- The allocator invariant: bounds, the partition property, no adjacent free
blocks, unique block ids, fresh `nextId`, the free-by-size map holding
exactly the free blocks in size-sorted order, and the allocation table
referencing used blocks with strictly sorted keys. -/
def Inv (s : HeapState) : Prop :=
  s.alignedSize < U32 ∧
  isPart 0 s.blocks s.alignedSize = true ∧
  NoAdjacentFree s.blocks ∧
  (s.blocks.map Block.id).Nodup ∧
  (∀ b ∈ s.blocks, b.id < s.nextId) ∧
  s.freeMap.Perm ((s.blocks.filter (fun b => b.isFree)).map (fun b => (b.size, b.id))) ∧
  List.Pairwise (fun e f => e.1 ≤ f.1) s.freeMap ∧
  (∀ p ∈ s.allocations,
    p.2.offset = p.1 ∧ ∃ b ∈ s.blocks, b.id = p.2.blockId ∧ b.offset = p.1 ∧ b.isFree = false) ∧
  List.Pairwise (fun e f => e.1 < f.1) s.allocations

end HeapAllocator

namespace HeapAllocator

theorem findBlock_some {blocks : List Block} {id : Nat} {b : Block}
    (h : findBlock blocks id = some b) : b ∈ blocks ∧ b.id = id := by
  induction blocks with
  | nil => simp [findBlock] at h
  | cons x rest ih =>
    by_cases hx : x.id = id
    · simp only [findBlock, if_pos hx, Option.some.injEq] at h
      subst h
      exact ⟨List.mem_cons_self x rest, hx⟩
    · simp only [findBlock, if_neg hx] at h
      obtain ⟨hmem, hid⟩ := ih h
      exact ⟨List.mem_cons_of_mem x hmem, hid⟩

theorem findBlock_decomp {blocks : List Block} {id : Nat} {b : Block}
    (h : findBlock blocks id = some b) :
    ∃ L1 L2, blocks = L1 ++ b :: L2 ∧ ∀ x ∈ L1, x.id ≠ id := by
  induction blocks with
  | nil => simp [findBlock] at h
  | cons x rest ih =>
    by_cases hx : x.id = id
    · simp only [findBlock, if_pos hx, Option.some.injEq] at h
      subst h
      exact ⟨[], rest, rfl, by simp⟩
    · simp only [findBlock, if_neg hx] at h
      obtain ⟨L1, L2, hEq, hAll⟩ := ih h
      refine ⟨x :: L1, L2, by simp [hEq], ?_⟩
      intro y hy
      rcases List.mem_cons.mp hy with h1 | h1
      · subst h1; exact hx
      · exact hAll y h1

theorem findBlock_append_left {L1 l2 : List Block} {id : Nat}
    (h : ∀ x ∈ L1, x.id ≠ id) : findBlock (L1 ++ l2) id = findBlock l2 id := by
  induction L1 with
  | nil => rfl
  | cons x t ih =>
    simp only [List.cons_append, findBlock, if_neg (h x (List.mem_cons_self x t))]
    exact ih (fun y hy => h y (List.mem_cons_of_mem x hy))

theorem findBlock_cons_self {b : Block} {l : List Block} {id : Nat} (hb : b.id = id) :
    findBlock (b :: l) id = some b := by
  simp [findBlock, hb]

theorem findBlock_of_mem_nodup {blocks : List Block} {b : Block} {id : Nat}
    (hn : (blocks.map Block.id).Nodup) (hb : b ∈ blocks) (hid : b.id = id) :
    findBlock blocks id = some b := by
  induction blocks with
  | nil => simp at hb
  | cons x rest ih =>
    rcases List.mem_cons.mp hb with h1 | h1
    · subst h1; exact findBlock_cons_self hid
    · have hx : x.id ≠ id := by
        intro hcontra
        have : x.id ∈ rest.map Block.id := by
          rw [hcontra, ← hid]
          exact List.mem_map_of_mem Block.id h1
        simp only [List.map_cons, List.nodup_cons] at hn
        exact hn.1 this
      simp only [findBlock, if_neg hx]
      exact ih (List.Nodup.of_cons (by simpa using hn)) h1

theorem setIsFree_decomp {L1 L2 : List Block} {b : Block} {id : Nat} (v : Bool)
    (h1 : ∀ x ∈ L1, x.id ≠ id) (hb : b.id = id) :
    setIsFree id v (L1 ++ b :: L2) = L1 ++ { b with isFree := v } :: L2 := by
  induction L1 with
  | nil => simp [setIsFree, hb]
  | cons x t ih =>
    simp only [List.cons_append, setIsFree, if_neg (h1 x (List.mem_cons_self x t))]
    exact congrArg (x :: ·) (ih (fun y hy => h1 y (List.mem_cons_of_mem x hy)))

theorem SplitBlock_decomp {L1 L2 : List Block} {b : Block} {id : Nat} (a nid : Nat)
    (h1 : ∀ x ∈ L1, x.id ≠ id) (hb : b.id = id) :
    SplitBlock id a nid (L1 ++ b :: L2) =
      L1 ++ { b with size := a } :: ⟨nid, (b.offset + a) % U32, b.size - a, true⟩ :: L2 := by
  induction L1 with
  | nil => simp [SplitBlock, hb]
  | cons x t ih =>
    simp only [List.cons_append, SplitBlock, if_neg (h1 x (List.mem_cons_self x t))]
    exact congrArg (x :: ·) (ih (fun y hy => h1 y (List.mem_cons_of_mem x hy)))

theorem takeWhile_append_cons {α : Type} (p : α → Bool) (L1 : List α) (b : α) (L2 : List α)
    (h1 : ∀ x ∈ L1, p x = true) (hb : p b = false) :
    (L1 ++ b :: L2).takeWhile p = L1 ∧ (L1 ++ b :: L2).dropWhile p = b :: L2 := by
  induction L1 with
  | nil => simp [List.takeWhile, List.dropWhile, hb]
  | cons x t ih =>
    obtain ⟨iht, ihd⟩ := ih (fun y hy => h1 y (List.mem_cons_of_mem x hy))
    constructor
    · simp [List.takeWhile, h1 x (List.mem_cons_self x t), iht]
    · simp [List.dropWhile, h1 x (List.mem_cons_self x t), ihd]

theorem isPart_nil {s t : Nat} : isPart s [] t = true ↔ s = t := by
  simp [isPart]

theorem isPart_cons {s t : Nat} {b : Block} {l : List Block} :
    isPart s (b :: l) t = true ↔ b.offset = s ∧ isPart (s + b.size) l t = true := by
  simp [isPart]

theorem isPart_append {X Y : List Block} {s t : Nat} :
    isPart s (X ++ Y) t = true ↔
      isPart s X (s + sizeSum X) = true ∧ isPart (s + sizeSum X) Y t = true := by
  induction X generalizing s with
  | nil => simp [isPart, sizeSum]
  | cons b X ih =>
    simp only [List.cons_append, isPart_cons, ih, sizeSum, List.map_cons, List.sum_cons]
    constructor
    · rintro ⟨h1, h2, h3⟩
      exact ⟨⟨h1, by rwa [Nat.add_assoc] at h2⟩, by rwa [Nat.add_assoc] at h3⟩
    · rintro ⟨⟨h1, h2⟩, h3⟩
      exact ⟨h1, by rwa [Nat.add_assoc], by rwa [Nat.add_assoc]⟩

theorem isPart_start_le {s t : Nat} {l : List Block} (h : isPart s l t = true) : s ≤ t := by
  induction l generalizing s with
  | nil => exact Nat.le_of_eq (isPart_nil.mp h)
  | cons b l ih =>
    obtain ⟨_, h2⟩ := isPart_cons.mp h
    exact Nat.le_trans (Nat.le_add_right s b.size) (ih h2)

theorem isPart_bound {s t : Nat} {l : List Block} (h : isPart s l t = true) :
    ∀ b ∈ l, s ≤ b.offset ∧ b.offset + b.size ≤ t := by
  induction l generalizing s with
  | nil => simp
  | cons x l ih =>
    obtain ⟨h1, h2⟩ := isPart_cons.mp h
    intro b hb
    rcases List.mem_cons.mp hb with h3 | h3
    · subst h3
      exact ⟨Nat.le_of_eq h1.symm, by rw [h1]; exact isPart_start_le h2⟩
    · obtain ⟨h4, h5⟩ := ih h2 b h3
      exact ⟨Nat.le_trans (Nat.le_add_right s x.size) h4, h5⟩

end HeapAllocator

namespace HeapAllocator

theorem CoalesceAdjacentFreeBlocks_decomp {L1 L2 : List Block} {b : Block} {id : Nat}
    (h1 : ∀ x ∈ L1, x.id ≠ id) (hb : b.id = id) :
    CoalesceAdjacentFreeBlocks id (L1 ++ b :: L2) =
      match L1.getLast? with
      | some p =>
        if p.isFree && ((p.offset + p.size) % U32 == b.offset) then
          ⟨L1.dropLast ++ (mergeNext { p with size := (p.size + b.size) % U32 } L2).blocks,
            (p.size, p.id) :: (mergeNext { p with size := (p.size + b.size) % U32 } L2).removed,
            b.offset :: (mergeNext { p with size := (p.size + b.size) % U32 } L2).removedOffsets,
            (mergeNext { p with size := (p.size + b.size) % U32 } L2).inserted⟩
        else
          ⟨L1 ++ (mergeNext b L2).blocks, (mergeNext b L2).removed,
            (mergeNext b L2).removedOffsets, (mergeNext b L2).inserted⟩
      | none => mergeNext b L2 := by
  have hTW := takeWhile_append_cons (fun x => x.id != id) L1 b L2
    (fun x hx => by simpa using h1 x hx) (by simp [hb])
  simp only [CoalesceAdjacentFreeBlocks, hTW.1, hTW.2]

theorem RemoveFromFreeMap_sublist (fm : List (Nat × Nat)) (sz id : Nat) :
    (RemoveFromFreeMap fm sz id).Sublist fm := by
  induction fm with
  | nil => simp [RemoveFromFreeMap]
  | cons e rest ih =>
    by_cases h : e.1 = sz ∧ e.2 = id
    · rw [RemoveFromFreeMap, if_pos h]
      exact List.sublist_cons_self e rest
    · rw [RemoveFromFreeMap, if_neg h]
      exact ih.cons₂ e

theorem RemoveFromFreeMap_cons_self (fm : List (Nat × Nat)) (sz id : Nat) :
    RemoveFromFreeMap ((sz, id) :: fm) sz id = fm := by
  simp [RemoveFromFreeMap]

theorem RemoveFromFreeMap_append_right {fm1 : List (Nat × Nat)} (fm2 : List (Nat × Nat))
    {sz id : Nat} (h : (sz, id) ∉ fm1) :
    RemoveFromFreeMap (fm1 ++ fm2) sz id = fm1 ++ RemoveFromFreeMap fm2 sz id := by
  induction fm1 with
  | nil => rfl
  | cons e rest ih =>
    have he : ¬(e.1 = sz ∧ e.2 = id) := by
      intro hc
      exact h (by
        have he2 : e = (sz, id) := Prod.ext hc.1 hc.2
        rw [he2]
        exact List.mem_cons_self _ _)
    rw [List.cons_append, RemoveFromFreeMap, if_neg he,
      ih (fun hm => h (List.mem_cons_of_mem e hm))]
    rfl

theorem RemoveFromFreeMap_perm {l1 l2 : List (Nat × Nat)} (h : l1.Perm l2) (sz id : Nat) :
    (RemoveFromFreeMap l1 sz id).Perm (RemoveFromFreeMap l2 sz id) := by
  induction h with
  | nil => simp [RemoveFromFreeMap]
  | cons x h ih =>
    by_cases hx : x.1 = sz ∧ x.2 = id
    · simpa [RemoveFromFreeMap, hx] using h
    · simpa [RemoveFromFreeMap, hx] using ih.cons x
  | swap x y l =>
    by_cases hy : y.1 = sz ∧ y.2 = id <;> by_cases hx : x.1 = sz ∧ x.2 = id
    · have hxy : x = y := Prod.ext (hx.1.trans hy.1.symm) (hx.2.trans hy.2.symm)
      simp [RemoveFromFreeMap, hx, hy, hxy]
    · simp [RemoveFromFreeMap, hx, hy]
    · simp [RemoveFromFreeMap, hx, hy]
    · simpa [RemoveFromFreeMap, hx, hy] using List.Perm.swap x y _
  | trans h1 h2 ih1 ih2 => exact ih1.trans ih2

theorem emplaceFree_perm (fm : List (Nat × Nat)) (sz id : Nat) :
    (emplaceFree fm sz id).Perm ((sz, id) :: fm) := by
  induction fm with
  | nil => simp [emplaceFree]
  | cons e rest ih =>
    by_cases h : sz < e.1
    · simp [emplaceFree, h]
    · simp only [emplaceFree, if_neg h]
      exact (ih.cons e).trans (List.Perm.swap (sz, id) e rest)

theorem mem_emplaceFree {fm : List (Nat × Nat)} {sz id : Nat} {x : Nat × Nat} :
    x ∈ emplaceFree fm sz id ↔ x = (sz, id) ∨ x ∈ fm := by
  rw [(emplaceFree_perm fm sz id).mem_iff]
  simp

theorem emplaceFree_sorted {fm : List (Nat × Nat)} (sz id : Nat)
    (h : List.Pairwise (fun e f => e.1 ≤ f.1) fm) :
    List.Pairwise (fun e f => e.1 ≤ f.1) (emplaceFree fm sz id) := by
  induction fm with
  | nil => simp [emplaceFree]
  | cons e rest ih =>
    rw [List.pairwise_cons] at h
    by_cases hlt : sz < e.1
    · simp only [emplaceFree, if_pos hlt]
      rw [List.pairwise_cons]
      refine ⟨?_, List.pairwise_cons.mpr h⟩
      intro f hf
      rcases List.mem_cons.mp hf with h1 | h1
      · subst h1; exact Nat.le_of_lt hlt
      · exact Nat.le_trans (Nat.le_of_lt hlt) (h.1 f h1)
    · simp only [emplaceFree, if_neg hlt]
      rw [List.pairwise_cons]
      refine ⟨?_, ih h.2⟩
      intro f hf
      rcases mem_emplaceFree.mp hf with h1 | h1
      · subst h1; exact Nat.le_of_not_lt hlt
      · exact h.1 f h1

theorem lowerBound_none_iff {fm : List (Nat × Nat)} {a : Nat} :
    lowerBound fm a = none ↔ ∀ e ∈ fm, e.1 < a := by
  induction fm with
  | nil => simp [lowerBound]
  | cons e rest ih =>
    by_cases h : a ≤ e.1
    · simp [lowerBound, h, Nat.not_lt_of_le h]
    · simp [lowerBound, h, ih, Nat.lt_of_not_le h]

theorem lowerBound_some_mem {fm : List (Nat × Nat)} {a : Nat} {e : Nat × Nat}
    (h : lowerBound fm a = some e) : e ∈ fm ∧ a ≤ e.1 := by
  induction fm with
  | nil => simp [lowerBound] at h
  | cons x rest ih =>
    by_cases hx : a ≤ x.1
    · simp only [lowerBound, if_pos hx, Option.some.injEq] at h
      subst h
      exact ⟨List.mem_cons_self x rest, hx⟩
    · simp only [lowerBound, if_neg hx] at h
      obtain ⟨h1, h2⟩ := ih h
      exact ⟨List.mem_cons_of_mem x h1, h2⟩

theorem lowerBound_min {fm : List (Nat × Nat)} {a : Nat} {e : Nat × Nat}
    (hs : List.Pairwise (fun e f => e.1 ≤ f.1) fm)
    (h : lowerBound fm a = some e) : ∀ f ∈ fm, a ≤ f.1 → e.1 ≤ f.1 := by
  induction fm with
  | nil => simp [lowerBound] at h
  | cons x rest ih =>
    rw [List.pairwise_cons] at hs
    by_cases hx : a ≤ x.1
    · simp only [lowerBound, if_pos hx, Option.some.injEq] at h
      subst h
      intro f hf _
      rcases List.mem_cons.mp hf with h1 | h1
      · subst h1; exact Nat.le_refl _
      · exact hs.1 f h1
    · simp only [lowerBound, if_neg hx] at h
      intro f hf haf
      rcases List.mem_cons.mp hf with h1 | h1
      · subst h1; exact absurd haf hx
      · exact ih hs.2 h f h1 haf

theorem mapFind_some {m : List (Nat × AllocationInfo)} {k : Nat} {v : AllocationInfo}
    (h : mapFind m k = some v) : (k, v) ∈ m := by
  induction m with
  | nil => simp [mapFind] at h
  | cons e rest ih =>
    by_cases he : e.1 = k
    · simp only [mapFind, if_pos he, Option.some.injEq] at h
      subst h
      have : e = (k, e.2) := Prod.ext he rfl
      rw [← this]
      exact List.mem_cons_self e rest
    · simp only [mapFind, if_neg he] at h
      exact List.mem_cons_of_mem e (ih h)

theorem mapFind_none_iff {m : List (Nat × AllocationInfo)} {k : Nat} :
    mapFind m k = none ↔ ∀ e ∈ m, e.1 ≠ k := by
  induction m with
  | nil => simp [mapFind]
  | cons e rest ih =>
    by_cases he : e.1 = k
    · simp [mapFind, he]
    · simp [mapFind, he, ih]

theorem mapErase_sublist (m : List (Nat × AllocationInfo)) (k : Nat) :
    (mapErase m k).Sublist m := by
  induction m with
  | nil => simp [mapErase]
  | cons e rest ih =>
    by_cases he : e.1 = k
    · rw [mapErase, if_pos he]
      exact List.sublist_cons_self e rest
    · simpa [mapErase, he] using ih.cons₂ e

theorem mem_of_mem_mapErase {m : List (Nat × AllocationInfo)} {k : Nat} {x : Nat × AllocationInfo}
    (h : x ∈ mapErase m k) : x ∈ m := (mapErase_sublist m k).mem h

theorem mem_mapErase_of_ne {m : List (Nat × AllocationInfo)} {k : Nat} {x : Nat × AllocationInfo}
    (hkeys : List.Pairwise (fun e f => e.1 < f.1) m)
    (hx : x ∈ m) (hne : x.1 ≠ k) : x ∈ mapErase m k := by
  induction m with
  | nil => simp at hx
  | cons e rest ih =>
    rw [List.pairwise_cons] at hkeys
    by_cases he : e.1 = k
    · rcases List.mem_cons.mp hx with h1 | h1
      · subst h1; exact absurd he hne
      · simpa [mapErase, he] using h1
    · rcases List.mem_cons.mp hx with h1 | h1
      · subst h1; simp [mapErase, he]
      · simp only [mapErase, if_neg he]
        exact List.mem_cons_of_mem e (ih hkeys.2 h1)

theorem mem_mapInsert {m : List (Nat × AllocationInfo)} {k : Nat} {v : AllocationInfo}
    {x : Nat × AllocationInfo} (h : x ∈ mapInsert m k v) : x = (k, v) ∨ x ∈ m := by
  induction m with
  | nil => simp [mapInsert] at h; exact Or.inl h
  | cons e rest ih =>
    by_cases h1 : k < e.1
    · simp only [mapInsert, if_pos h1] at h
      rcases List.mem_cons.mp h with h2 | h2
      · exact Or.inl h2
      · exact Or.inr h2
    · by_cases h2 : k = e.1
      · simp only [mapInsert, if_neg h1, if_pos h2] at h
        rcases List.mem_cons.mp h with h3 | h3
        · exact Or.inl h3
        · exact Or.inr (List.mem_cons_of_mem e h3)
      · simp only [mapInsert, if_neg h1, if_neg h2] at h
        rcases List.mem_cons.mp h with h3 | h3
        · exact Or.inr (by simp [h3])
        · rcases ih h3 with h4 | h4
          · exact Or.inl h4
          · exact Or.inr (List.mem_cons_of_mem e h4)

theorem mapInsert_pairwise {m : List (Nat × AllocationInfo)} (k : Nat) (v : AllocationInfo)
    (h : List.Pairwise (fun e f => e.1 < f.1) m) :
    List.Pairwise (fun e f => e.1 < f.1) (mapInsert m k v) := by
  induction m with
  | nil => simp [mapInsert]
  | cons e rest ih =>
    rw [List.pairwise_cons] at h
    by_cases h1 : k < e.1
    · simp only [mapInsert, if_pos h1]
      rw [List.pairwise_cons]
      refine ⟨?_, List.pairwise_cons.mpr h⟩
      intro f hf
      rcases List.mem_cons.mp hf with h2 | h2
      · subst h2; exact h1
      · exact Nat.lt_trans h1 (h.1 f h2)
    · by_cases h2 : k = e.1
      · simp only [mapInsert, if_neg h1, if_pos h2]
        rw [List.pairwise_cons]
        exact ⟨fun f hf => h2 ▸ h.1 f hf, h.2⟩
      · simp only [mapInsert, if_neg h1, if_neg h2]
        rw [List.pairwise_cons]
        refine ⟨?_, ih h.2⟩
        intro f hf
        rcases mem_mapInsert hf with h3 | h3
        · subst h3
          exact Nat.lt_of_le_of_ne (Nat.le_of_not_lt h1) (Ne.symm h2)
        · exact h.1 f h3

end HeapAllocator

namespace HeapAllocator

theorem eq_of_mem_id {l : List Block} (hn : (l.map Block.id).Nodup) {b c : Block}
    (hb : b ∈ l) (hc : c ∈ l) (hid : b.id = c.id) : b = c := by
  induction l with
  | nil => simp at hb
  | cons x t ih =>
    simp only [List.map_cons, List.nodup_cons] at hn
    rcases List.mem_cons.mp hb with h1 | h1 <;> rcases List.mem_cons.mp hc with h2 | h2
    · rw [h1, h2]
    · exfalso
      apply hn.1
      rw [h1] at hid
      rw [hid]
      exact List.mem_map_of_mem Block.id h2
    · exfalso
      apply hn.1
      rw [h2] at hid
      rw [← hid]
      exact List.mem_map_of_mem Block.id h1
    · exact ih hn.2 h1 h2

theorem nodup_append_ne {X Y : List Block} (hn : ((X ++ Y).map Block.id).Nodup)
    {x y : Block} (hx : x ∈ X) (hy : y ∈ Y) : x.id ≠ y.id := by
  rw [List.map_append, List.nodup_append] at hn
  intro h
  exact hn.2.2 (List.mem_map_of_mem Block.id hx)
    (by rw [h]; exact List.mem_map_of_mem Block.id hy)

theorem pair_not_mem_mp {L : List Block} {f : Block → Bool} {sz i : Nat}
    (h : ∀ x ∈ L, x.id ≠ i) :
    (sz, i) ∉ (L.filter f).map (fun b => (b.size, b.id)) := by
  intro hmem
  obtain ⟨x, hx, hpair⟩ := List.mem_map.mp hmem
  have hxL : x ∈ L := List.mem_of_mem_filter hx
  have : x.id = i := congrArg Prod.snd hpair
  exact h x hxL this

theorem isPart_adjacent {X Z : List Block} {y z : Block} {s t : Nat}
    (h : isPart s (X ++ y :: z :: Z) t = true) : y.offset + y.size = z.offset := by
  obtain ⟨-, h2⟩ := isPart_append.mp h
  obtain ⟨hy, h3⟩ := isPart_cons.mp h2
  obtain ⟨hz, -⟩ := isPart_cons.mp h3
  rw [hy, hz]

theorem isPart_subst {X Z : List Block} {y w : Block} {s t : Nat}
    (h : isPart s (X ++ y :: Z) t = true)
    (h1 : w.offset = y.offset) (h2 : w.size = y.size) :
    isPart s (X ++ w :: Z) t = true := by
  obtain ⟨ha, hb⟩ := isPart_append.mp h
  obtain ⟨hy, hc⟩ := isPart_cons.mp hb
  refine isPart_append.mpr ⟨ha, isPart_cons.mpr ⟨by rw [h1, hy], ?_⟩⟩
  rwa [h2]

theorem isPart_split {X Z : List Block} {y : Block} {s t a : Nat}
    (h : isPart s (X ++ y :: Z) t = true) (ha : a ≤ y.size) (w1 w2 : Block)
    (h1 : w1.offset = y.offset) (h2 : w1.size = a)
    (h3 : w2.offset = y.offset + a) (h4 : w2.size = y.size - a) :
    isPart s (X ++ w1 :: w2 :: Z) t = true := by
  obtain ⟨hA, hB⟩ := isPart_append.mp h
  obtain ⟨hy, hC⟩ := isPart_cons.mp hB
  refine isPart_append.mpr ⟨hA, isPart_cons.mpr ⟨by rw [h1, hy], isPart_cons.mpr ⟨?_, ?_⟩⟩⟩
  · rw [h3, h2, hy]
  · rw [h2, h4]
    have : s + sizeSum X + a + (y.size - a) = s + sizeSum X + y.size := by omega
    rwa [this]

theorem isPart_merge {X Z : List Block} {y z w : Block} {s t : Nat}
    (h : isPart s (X ++ y :: z :: Z) t = true)
    (h1 : w.offset = y.offset) (h2 : w.size = y.size + z.size) :
    isPart s (X ++ w :: Z) t = true := by
  obtain ⟨hA, hB⟩ := isPart_append.mp h
  obtain ⟨hy, hC⟩ := isPart_cons.mp hB
  obtain ⟨hz, hD⟩ := isPart_cons.mp hC
  refine isPart_append.mpr ⟨hA, isPart_cons.mpr ⟨by rw [h1, hy], ?_⟩⟩
  rw [h2, ← Nat.add_assoc]
  exact hD

theorem adjOK_left {a b : Block} (h : a.isFree = false) : adjOK a b := by
  simp [adjOK, h]

theorem adjOK_right {a b : Block} (h : b.isFree = false) : adjOK a b := by
  simp [adjOK, h]

theorem U32_pos : 0 < U32 := by norm_num [U32]

theorem initState_inv (ne es al : Nat) : Inv (initState ne es al) := by
  refine ⟨?_, ?_, ?_, ?_, ?_, ?_, ?_, ?_, ?_⟩
  · exact Nat.mod_lt _ U32_pos
  · simp [initState, isPart]
  · simp [initState, NoAdjacentFree]
  · simp [initState]
  · simp [initState]
  · simp [initState]
  · simp [initState]
  · simp [initState]
  · simp [initState]

end HeapAllocator

namespace HeapAllocator

theorem Allocate_eq_none {s : HeapState} {n : Nat}
    (h : lowerBound s.freeMap (AlignSize (n % U32) s.alignment % U32) = none) :
    Allocate s n = (U32 - 1, s) := by
  simp [Allocate, h]

theorem Allocate_eq_fb_none {s : HeapState} {n : Nat} {e : Nat × Nat}
    (h1 : lowerBound s.freeMap (AlignSize (n % U32) s.alignment % U32) = some e)
    (h2 : findBlock s.blocks e.2 = none) :
    Allocate s n = (U32 - 1, s) := by
  simp [Allocate, h1, h2]

theorem Allocate_eq_found {s : HeapState} {n : Nat} {e : Nat × Nat} {b : Block}
    (h1 : lowerBound s.freeMap (AlignSize (n % U32) s.alignment % U32) = some e)
    (h2 : findBlock s.blocks e.2 = some b) :
    Allocate s n = allocateFound s (AlignSize (n % U32) s.alignment % U32) b := by
  simp [Allocate, h1, h2]

theorem Allocate_entry_block {s : HeapState} (hInv : Inv s) {e : Nat × Nat} {b : Block}
    (he : e ∈ s.freeMap) (hfb : findBlock s.blocks e.2 = some b) :
    b ∈ s.blocks ∧ b.isFree = true ∧ b.size = e.1 := by
  obtain ⟨-, -, -, huniq, -, hfm, -, -, -⟩ := hInv
  have hmem := hfm.mem_iff.mp he
  obtain ⟨c, hc, hpair⟩ := List.mem_map.mp hmem
  have hcmem : c ∈ s.blocks := List.mem_of_mem_filter hc
  have hcfree : c.isFree = true := by
    have := List.of_mem_filter hc
    simpa using this
  obtain ⟨hbmem, hbid⟩ := findBlock_some hfb
  have hcid : c.id = e.2 := congrArg Prod.snd hpair
  have hcsz : c.size = e.1 := congrArg Prod.fst hpair
  have : b = c := eq_of_mem_id huniq hbmem hcmem (by rw [hbid, hcid])
  subst this
  exact ⟨hbmem, hcfree, hcsz⟩

theorem nodup_insert_after {X Z : List Nat} {y w : Nat}
    (hn : (X ++ y :: Z).Nodup) (hw : w ∉ X ++ y :: Z) : (X ++ y :: w :: Z).Nodup := by
  have hperm : ((X ++ [y]) ++ w :: Z).Perm (w :: ((X ++ [y]) ++ Z)) := List.perm_middle
  have h1 : X ++ y :: w :: Z = (X ++ [y]) ++ w :: Z := by simp
  have h3 : (X ++ [y]) ++ Z = X ++ y :: Z := by simp
  rw [h3] at hperm
  rw [h1]
  exact hperm.nodup_iff.mpr (List.nodup_cons.mpr ⟨hw, hn⟩)

theorem allocateFound_inv {s : HeapState} (hInv : Inv s) {a : Nat} {b : Block}
    (hb : b ∈ s.blocks) (hbf : b.isFree = true) (hab : a ≤ b.size) :
    Inv (allocateFound s a b).2 := by
  obtain ⟨hA, hpart, hadj, huniq, hfresh, hfm, hsort, halloc, hkeys⟩ := hInv
  obtain ⟨L1, L2, hdec, h1⟩ :=
    findBlock_decomp (findBlock_of_mem_nodup huniq hb rfl)
  have hbound : b.offset + b.size ≤ s.alignedSize := by
    have := isPart_bound hpart b hb
    exact this.2
  have hfreshb : b.id < s.nextId := hfresh b hb
  have hnextid : s.nextId ∉ (s.blocks.map Block.id) := by
    intro hmem
    obtain ⟨x, hx, hxid⟩ := List.mem_map.mp hmem
    exact Nat.ne_of_lt (hfresh x hx) hxid
  by_cases hsplit : a < b.size
  · -- split case
    have hmod : (b.offset + a) % U32 = b.offset + a :=
      Nat.mod_eq_of_lt (Nat.lt_of_le_of_lt (by omega) hA)
    have hsb : SplitBlock b.id a s.nextId s.blocks =
        L1 ++ { b with size := a } :: (⟨s.nextId, (b.offset + a) % U32, b.size - a, true⟩ : Block) :: L2 := by
      rw [hdec]
      exact SplitBlock_decomp a s.nextId h1 rfl
    have hset : setIsFree b.id false (SplitBlock b.id a s.nextId s.blocks) =
        L1 ++ (⟨b.id, b.offset, a, false⟩ : Block) ::
          (⟨s.nextId, (b.offset + a) % U32, b.size - a, true⟩ : Block) :: L2 := by
      rw [hsb]
      exact setIsFree_decomp false h1 rfl
    simp only [allocateFound, if_pos hsplit]
    refine ⟨hA, ?_, ?_, ?_, ?_, ?_, ?_, ?_, ?_⟩
    · -- partition
      rw [hset]
      rw [hdec] at hpart
      exact isPart_split hpart (Nat.le_of_lt hsplit) _ _ rfl rfl (by simp [hmod]) rfl
    · -- no adjacent free
      rw [hset]
      rw [hdec] at hadj
      rw [NoAdjacentFree, List.chain'_append] at hadj ⊢
      obtain ⟨hc1, hc2, hlink⟩ := hadj
      refine ⟨hc1, ?_, ?_⟩
      · rw [List.chain'_cons]
        refine ⟨adjOK_left rfl, ?_⟩
        rw [List.chain'_cons'] at hc2 ⊢
        refine ⟨?_, hc2.2⟩
        intro h hh
        exact adjOK_right (by
          have := hc2.1 h hh
          simp only [adjOK, hbf, true_and] at this
          simpa using this)
      · intro x hx y hy
        simp only [List.head?_cons, Option.mem_def, Option.some.injEq] at hy
        subst hy
        exact adjOK_right rfl
    · -- nodup ids
      rw [hset]
      rw [hdec] at huniq hnextid
      simp only [List.map_append, List.map_cons] at huniq hnextid ⊢
      exact nodup_insert_after huniq hnextid
    · -- fresh ids
      rw [hset]
      intro x hx
      simp only [List.mem_append, List.mem_cons] at hx
      rcases hx with hx | hx | hx | hx
      · exact Nat.lt_succ_of_lt (hfresh x (by rw [hdec]; exact List.mem_append_left _ hx))
      · rw [hx]
        exact Nat.lt_succ_of_lt hfreshb
      · rw [hx]
        exact Nat.lt_succ_self _
      · exact Nat.lt_succ_of_lt (hfresh x (by
          rw [hdec]
          exact List.mem_append_right _ (List.mem_cons_of_mem b hx)))
    · -- free map matches free blocks
      rw [hset]
      have hfm2 : s.freeMap.Perm
          ((L1.filter (fun x => x.isFree)).map (fun x => (x.size, x.id)) ++
            (b.size, b.id) :: (L2.filter (fun x => x.isFree)).map (fun x => (x.size, x.id))) := by
        rw [hdec] at hfm
        simpa [List.filter_append, List.filter_cons, hbf] using hfm
      have hnm : (b.size, b.id) ∉
          (L1.filter (fun x => x.isFree)).map (fun x => (x.size, x.id)) :=
        pair_not_mem_mp h1
      have herase : (RemoveFromFreeMap s.freeMap b.size b.id).Perm
          ((L1.filter (fun x => x.isFree)).map (fun x => (x.size, x.id)) ++
            (L2.filter (fun x => x.isFree)).map (fun x => (x.size, x.id))) := by
        have h2 := RemoveFromFreeMap_perm hfm2 b.size b.id
        rwa [RemoveFromFreeMap_append_right _ hnm, RemoveFromFreeMap_cons_self] at h2
      refine ((emplaceFree_perm _ _ _).trans ?_)
      have hgoal : ((List.filter (fun x => x.isFree)
            (L1 ++ (⟨b.id, b.offset, a, false⟩ : Block) ::
              (⟨s.nextId, (b.offset + a) % U32, b.size - a, true⟩ : Block) :: L2)).map
          (fun x => (x.size, x.id))) =
          (L1.filter (fun x => x.isFree)).map (fun x => (x.size, x.id)) ++
            (b.size - a, s.nextId) ::
              (L2.filter (fun x => x.isFree)).map (fun x => (x.size, x.id)) := by
        simp [List.filter_append, List.filter_cons]
      rw [hgoal]
      exact ((herase.cons _).trans List.perm_middle.symm)
    · -- free map sorted
      exact emplaceFree_sorted _ _ (hsort.sublist (RemoveFromFreeMap_sublist _ _ _))
    · -- allocations sound
      intro p hp
      rcases mem_mapInsert hp with hpeq | hpold
      · subst hpeq
        refine ⟨rfl, ⟨b.id, b.offset, a, false⟩, ?_, rfl, rfl, rfl⟩
        rw [hset]
        exact List.mem_append_right _ (List.mem_cons_self _ _)
      · obtain ⟨hpo, c, hcmem, hcid, hcoff, hcused⟩ := halloc p hpold
        refine ⟨hpo, c, ?_, hcid, hcoff, hcused⟩
        have hcne : c ≠ b := by
          intro hcb
          rw [hcb] at hcused
          rw [hbf] at hcused
          simp at hcused
        rw [hdec] at hcmem
        rw [hset]
        rcases List.mem_append.mp hcmem with hcl | hcr
        · exact List.mem_append_left _ hcl
        · rcases List.mem_cons.mp hcr with hceq | hcl2
          · exact absurd hceq hcne
          · exact List.mem_append_right _
              (List.mem_cons_of_mem _ (List.mem_cons_of_mem _ hcl2))
    · -- allocation keys sorted
      exact mapInsert_pairwise _ _ hkeys
  · -- no split: a = b.size
    have hba : a = b.size := Nat.le_antisymm hab (Nat.le_of_not_lt hsplit)
    have hset : setIsFree b.id false s.blocks =
        L1 ++ (⟨b.id, b.offset, b.size, false⟩ : Block) :: L2 := by
      rw [hdec]
      exact setIsFree_decomp false h1 rfl
    simp only [allocateFound, if_neg hsplit]
    refine ⟨hA, ?_, ?_, ?_, ?_, ?_, ?_, ?_, ?_⟩
    · rw [hset]
      rw [hdec] at hpart
      exact isPart_subst hpart rfl rfl
    · rw [hset]
      rw [hdec] at hadj
      rw [NoAdjacentFree, List.chain'_append] at hadj ⊢
      obtain ⟨hc1, hc2, hlink⟩ := hadj
      refine ⟨hc1, ?_, ?_⟩
      · rw [List.chain'_cons'] at hc2 ⊢
        exact ⟨fun h hh => adjOK_left rfl, hc2.2⟩
      · intro x hx y hy
        simp only [List.head?_cons, Option.mem_def, Option.some.injEq] at hy
        subst hy
        exact adjOK_right rfl
    · rw [hset]
      rw [hdec] at huniq
      simpa using huniq
    · rw [hset]
      intro x hx
      simp only [List.mem_append, List.mem_cons] at hx
      rcases hx with hx | hx | hx
      · exact hfresh x (by rw [hdec]; exact List.mem_append_left _ hx)
      · rw [hx]
        exact hfreshb
      · exact hfresh x (by
          rw [hdec]
          exact List.mem_append_right _ (List.mem_cons_of_mem b hx))
    · rw [hset]
      have hfm2 : s.freeMap.Perm
          ((L1.filter (fun x => x.isFree)).map (fun x => (x.size, x.id)) ++
            (b.size, b.id) :: (L2.filter (fun x => x.isFree)).map (fun x => (x.size, x.id))) := by
        rw [hdec] at hfm
        simpa [List.filter_append, List.filter_cons, hbf] using hfm
      have hnm : (b.size, b.id) ∉
          (L1.filter (fun x => x.isFree)).map (fun x => (x.size, x.id)) :=
        pair_not_mem_mp h1
      have herase : (RemoveFromFreeMap s.freeMap b.size b.id).Perm
          ((L1.filter (fun x => x.isFree)).map (fun x => (x.size, x.id)) ++
            (L2.filter (fun x => x.isFree)).map (fun x => (x.size, x.id))) := by
        have h2 := RemoveFromFreeMap_perm hfm2 b.size b.id
        rwa [RemoveFromFreeMap_append_right _ hnm, RemoveFromFreeMap_cons_self] at h2
      simpa [List.filter_append, List.filter_cons] using herase
    · exact hsort.sublist (RemoveFromFreeMap_sublist _ _ _)
    · intro p hp
      rcases mem_mapInsert hp with hpeq | hpold
      · subst hpeq
        refine ⟨rfl, ⟨b.id, b.offset, b.size, false⟩, ?_, rfl, rfl, rfl⟩
        rw [hset]
        exact List.mem_append_right _ (List.mem_cons_self _ _)
      · obtain ⟨hpo, c, hcmem, hcid, hcoff, hcused⟩ := halloc p hpold
        refine ⟨hpo, c, ?_, hcid, hcoff, hcused⟩
        have hcne : c ≠ b := by
          intro hcb
          rw [hcb] at hcused
          rw [hbf] at hcused
          simp at hcused
        rw [hdec] at hcmem
        rw [hset]
        rcases List.mem_append.mp hcmem with hcl | hcr
        · exact List.mem_append_left _ hcl
        · rcases List.mem_cons.mp hcr with hceq | hcl2
          · exact absurd hceq hcne
          · exact List.mem_append_right _ (List.mem_cons_of_mem _ hcl2)
    · exact mapInsert_pairwise _ _ hkeys

theorem Allocate_inv {s : HeapState} (hInv : Inv s) (n : Nat) : Inv (Allocate s n).2 := by
  rcases hlb : lowerBound s.freeMap (AlignSize (n % U32) s.alignment % U32) with _ | e
  · rw [Allocate_eq_none hlb]
    exact hInv
  · rcases hfb : findBlock s.blocks e.2 with _ | b
    · rw [Allocate_eq_fb_none hlb hfb]
      exact hInv
    · rw [Allocate_eq_found hlb hfb]
      obtain ⟨hbmem, hbfree, hbsz⟩ := Allocate_entry_block hInv (lowerBound_some_mem hlb).1 hfb
      have hab : AlignSize (n % U32) s.alignment % U32 ≤ b.size := by
        rw [hbsz]
        exact (lowerBound_some_mem hlb).2
      exact allocateFound_inv hInv hbmem hbfree hab

end HeapAllocator

namespace HeapAllocator

theorem Free_eq_sentinel {s : HeapState} {off : Nat} (h : off % U32 = U32 - 1) :
    Free s off = s := by
  simp [Free, h]

theorem Free_eq_unknown {s : HeapState} {off : Nat} (h1 : ¬off % U32 = U32 - 1)
    (h2 : mapFind s.allocations (off % U32) = none) : Free s off = s := by
  simp [Free, h1, h2]

theorem Free_eq_found {s : HeapState} {off : Nat} {info : AllocationInfo}
    (h1 : ¬off % U32 = U32 - 1)
    (h2 : mapFind s.allocations (off % U32) = some info) :
    Free s off = freeFound s (off % U32) info := by
  simp [Free, h1, h2]

theorem mergeNext_nil (cur : Block) :
    mergeNext cur [] = ⟨[cur], [], [], some (cur.size, cur.id)⟩ := rfl

theorem mergeNext_cons_true {cur n : Block} {rest : List Block}
    (h : (n.isFree && ((cur.offset + cur.size) % U32 == n.offset)) = true) :
    mergeNext cur (n :: rest) =
      ⟨{ cur with size := (cur.size + n.size) % U32 } :: rest, [(n.size, n.id)], [n.offset],
        some ((cur.size + n.size) % U32, cur.id)⟩ := by
  simp [mergeNext, h]

theorem mergeNext_cons_false {cur n : Block} {rest : List Block}
    (h : (n.isFree && ((cur.offset + cur.size) % U32 == n.offset)) = false) :
    mergeNext cur (n :: rest) =
      ⟨cur :: n :: rest, [], [], some (cur.size, cur.id)⟩ := by
  simp [mergeNext, h]

theorem mem_mapErase_strict {m : List (Nat × AllocationInfo)} {k : Nat}
    (hkeys : List.Pairwise (fun e f => e.1 < f.1) m) {q : Nat × AllocationInfo}
    (hq : q ∈ mapErase m k) : q ∈ m ∧ q.1 ≠ k := by
  induction m with
  | nil => simp [mapErase] at hq
  | cons e rest ih =>
    rw [List.pairwise_cons] at hkeys
    by_cases he : e.1 = k
    · rw [mapErase, if_pos he] at hq
      refine ⟨List.mem_cons_of_mem e hq, ?_⟩
      have := hkeys.1 q hq
      omega
    · rw [mapErase, if_neg he] at hq
      rcases List.mem_cons.mp hq with h2 | h2
      · refine ⟨?_, ?_⟩
        · rw [h2]
          exact List.mem_cons_self e rest
        · rw [h2]
          exact he
      · obtain ⟨h3, h4⟩ := ih hkeys.2 h2
        exact ⟨List.mem_cons_of_mem e h3, h4⟩

end HeapAllocator

namespace HeapAllocator

theorem adjOK_resolve {a b : Block} (h : adjOK a b) (ha : a.isFree = true) :
    b.isFree = false := by
  cases hbv : b.isFree with
  | false => rfl
  | true => exact absurd ⟨ha, hbv⟩ h

theorem applyCoal_removed_cons {bs : List Block} {offs : List Nat} {e : Nat × Nat}
    {rem : List (Nat × Nat)} {ins : Option (Nat × Nat)} {fm : List (Nat × Nat)} :
    applyCoal ⟨bs, e :: rem, offs, ins⟩ fm =
      applyCoal ⟨bs, rem, offs, ins⟩ (RemoveFromFreeMap fm e.1 e.2) := rfl

theorem cons_append_perm {α : Type} (a : α) (l1 l2 : List α) :
    (a :: (l1 ++ l2)).Perm (l1 ++ a :: l2) := List.perm_middle.symm

theorem mergeNext_spec {front L2 : List Block} {cur : Block} {A NI : Nat}
    {fmBase : List (Nat × Nat)}
    (hA : A < U32)
    (hpart : isPart 0 (front ++ cur :: L2) A = true)
    (hchainFront : List.Chain' adjOK front)
    (hfrontLast : ∀ x, front.getLast? = some x → x.isFree = false)
    (hchainL2 : List.Chain' adjOK L2)
    (hcur : cur.isFree = true)
    (huniq : ((front ++ cur :: L2).map Block.id).Nodup)
    (hfresh : ∀ b ∈ front ++ cur :: L2, b.id < NI)
    (hfm : fmBase.Perm ((front.filter (fun b => b.isFree)).map (fun b => (b.size, b.id)) ++
      (L2.filter (fun b => b.isFree)).map (fun b => (b.size, b.id))))
    (hsort : List.Pairwise (fun e f => e.1 ≤ f.1) fmBase) :
    isPart 0 (front ++ (mergeNext cur L2).blocks) A = true ∧
    List.Chain' adjOK (front ++ (mergeNext cur L2).blocks) ∧
    ((front ++ (mergeNext cur L2).blocks).map Block.id).Nodup ∧
    (∀ b ∈ front ++ (mergeNext cur L2).blocks, b.id < NI) ∧
    (applyCoal (mergeNext cur L2) fmBase).Perm
      (((front ++ (mergeNext cur L2).blocks).filter (fun b => b.isFree)).map
        (fun b => (b.size, b.id))) ∧
    List.Pairwise (fun e f => e.1 ≤ f.1) (applyCoal (mergeNext cur L2) fmBase) ∧
    (∀ d ∈ front ++ cur :: L2, d.isFree = false → d ∈ front ++ (mergeNext cur L2).blocks) := by
  rcases L2 with _ | ⟨n, L2p⟩
  · -- no next block
    rw [mergeNext_nil]
    refine ⟨hpart, ?_, huniq, hfresh, ?_, ?_, ?_⟩
    · rw [List.chain'_append]
      refine ⟨hchainFront, List.chain'_singleton cur, ?_⟩
      intro x hx y hy
      simp only [List.head?_cons, Option.mem_def, Option.some.injEq] at hy
      subst hy
      exact adjOK_left (hfrontLast x hx)
    · simp only [applyCoal, List.foldl_nil]
      refine (emplaceFree_perm _ _ _).trans ((hfm.cons _).trans
        ((cons_append_perm _ _ _).trans (List.Perm.of_eq ?_)))
      simp [List.filter_append, List.filter_cons, hcur]
    · simp only [applyCoal, List.foldl_nil]
      exact emplaceFree_sorted _ _ hsort
    · intro d hd _
      exact hd
  · have hadx : cur.offset + cur.size = n.offset := isPart_adjacent hpart
    have hbn : n.offset + n.size ≤ A := by
      have := isPart_bound hpart n (by
        refine List.mem_append_right _ ?_
        exact List.mem_cons_of_mem _ (List.mem_cons_self _ _))
      exact this.2
    have hlt : cur.offset + cur.size < U32 := by omega
    have hbeq : ((cur.offset + cur.size) % U32 == n.offset) = true := by
      rw [Nat.mod_eq_of_lt hlt, hadx]
      exact beq_self_eq_true _
    by_cases hnf : n.isFree = true
    · -- next is free: merge
      have hcond : (n.isFree && ((cur.offset + cur.size) % U32 == n.offset)) = true := by
        rw [hnf, hbeq]
        rfl
      rw [mergeNext_cons_true hcond]
      have hsum : cur.size + n.size < U32 := by omega
      have hmsz : (cur.size + n.size) % U32 = cur.size + n.size := Nat.mod_eq_of_lt hsum
      have hids : ∀ x ∈ front, x.id ≠ n.id := by
        intro x hx
        exact nodup_append_ne huniq hx
          (List.mem_cons_of_mem _ (List.mem_cons_self _ _))
      refine ⟨?_, ?_, ?_, ?_, ?_, ?_, ?_⟩
      · exact isPart_merge hpart rfl hmsz
      · rw [List.chain'_append]
        rw [List.chain'_cons'] at hchainL2
        refine ⟨hchainFront, ?_, ?_⟩
        · rw [List.chain'_cons']
          refine ⟨?_, hchainL2.2⟩
          intro h hh
          exact adjOK_right (adjOK_resolve (hchainL2.1 h hh) hnf)
        · intro x hx y hy
          simp only [List.head?_cons, Option.mem_def, Option.some.injEq] at hy
          subst hy
          exact adjOK_left (hfrontLast x hx)
      · simp only [List.map_append, List.map_cons] at huniq ⊢
        refine huniq.sublist ?_
        refine List.Sublist.append_left ?_ _
        exact (List.sublist_cons_self n.id (L2p.map Block.id)).cons₂ cur.id
      · intro b hb
        rcases List.mem_append.mp hb with hb | hb
        · exact hfresh b (List.mem_append_left _ hb)
        · rcases List.mem_cons.mp hb with hb | hb
          · rw [hb]
            exact hfresh cur (List.mem_append_right _ (List.mem_cons_self _ _))
          · exact hfresh b (List.mem_append_right _
              (List.mem_cons_of_mem _ (List.mem_cons_of_mem _ hb)))
      · simp only [applyCoal, List.foldl_cons, List.foldl_nil]
        have hfm2 : fmBase.Perm
            ((front.filter (fun b => b.isFree)).map (fun b => (b.size, b.id)) ++
              (n.size, n.id) :: (L2p.filter (fun b => b.isFree)).map (fun b => (b.size, b.id))) := by
          refine hfm.trans ?_
          simp [List.filter_cons, hnf]
        have hrm : (RemoveFromFreeMap fmBase n.size n.id).Perm
            ((front.filter (fun b => b.isFree)).map (fun b => (b.size, b.id)) ++
              (L2p.filter (fun b => b.isFree)).map (fun b => (b.size, b.id))) := by
          have h2 := RemoveFromFreeMap_perm hfm2 n.size n.id
          rwa [RemoveFromFreeMap_append_right _ (pair_not_mem_mp hids),
            RemoveFromFreeMap_cons_self] at h2
        refine (emplaceFree_perm _ _ _).trans ((hrm.cons _).trans
          ((cons_append_perm _ _ _).trans (List.Perm.of_eq ?_)))
        simp [List.filter_append, List.filter_cons, hcur]
      · simp only [applyCoal, List.foldl_cons, List.foldl_nil]
        exact emplaceFree_sorted _ _ (hsort.sublist (RemoveFromFreeMap_sublist _ _ _))
      · intro d hd hdu
        rcases List.mem_append.mp hd with hd | hd
        · exact List.mem_append_left _ hd
        · rcases List.mem_cons.mp hd with hd | hd
          · rw [hd] at hdu
            rw [hcur] at hdu
            simp at hdu
          · rcases List.mem_cons.mp hd with hd | hd
            · rw [hd] at hdu
              rw [hnf] at hdu
              simp at hdu
            · exact List.mem_append_right _ (List.mem_cons_of_mem _ hd)
    · -- next is used: no merge
      have hnf2 : n.isFree = false := by
        cases h : n.isFree with
        | false => rfl
        | true => exact absurd h hnf
      have hcond : (n.isFree && ((cur.offset + cur.size) % U32 == n.offset)) = false := by
        rw [hnf2]
        rfl
      rw [mergeNext_cons_false hcond]
      refine ⟨hpart, ?_, huniq, hfresh, ?_, ?_, ?_⟩
      · rw [List.chain'_append]
        refine ⟨hchainFront, ?_, ?_⟩
        · rw [List.chain'_cons]
          exact ⟨adjOK_right hnf2, hchainL2⟩
        · intro x hx y hy
          simp only [List.head?_cons, Option.mem_def, Option.some.injEq] at hy
          subst hy
          exact adjOK_left (hfrontLast x hx)
      · simp only [applyCoal, List.foldl_nil]
        refine (emplaceFree_perm _ _ _).trans ((hfm.cons _).trans
          ((cons_append_perm _ _ _).trans (List.Perm.of_eq ?_)))
        simp [List.filter_append, List.filter_cons, hcur, hnf2]
      · simp only [applyCoal, List.foldl_nil]
        exact emplaceFree_sorted _ _ hsort
      · intro d hd _
        exact hd

end HeapAllocator

namespace HeapAllocator

theorem adjOK_resolve_left {a b : Block} (h : adjOK a b) (hb : b.isFree = true) :
    a.isFree = false := by
  cases hav : a.isFree with
  | false => rfl
  | true => exact absurd ⟨hav, hb⟩ h

theorem applyCoal_proj (bs : List Block) (offs : List Nat) (r : CoalResult)
    (fm : List (Nat × Nat)) :
    applyCoal ⟨bs, r.removed, offs, r.inserted⟩ fm = applyCoal r fm := rfl

theorem freeFound_inv {s : HeapState} (hInv : Inv s) {off : Nat} {info : AllocationInfo}
    (hfind : mapFind s.allocations off = some info) : Inv (freeFound s off info) := by
  obtain ⟨hA, hpart, hadj, huniq, hfresh, hfm, hsort, halloc, hkeys⟩ := hInv
  obtain ⟨hoff, c, hcmem, hcid, hcoff, hcused⟩ := halloc _ (mapFind_some hfind)
  dsimp only at hoff hcid hcoff
  obtain ⟨L1, L2, hdec, h1⟩ := findBlock_decomp (findBlock_of_mem_nodup huniq hcmem hcid)
  have hset : setIsFree info.blockId true s.blocks = L1 ++ { c with isFree := true } :: L2 := by
    rw [hdec]
    exact setIsFree_decomp true h1 hcid
  have hpart0 : isPart 0 (L1 ++ c :: L2) s.alignedSize = true := by
    rw [← hdec]
    exact hpart
  have hadj0 : NoAdjacentFree (L1 ++ c :: L2) := by
    rw [← hdec]
    exact hadj
  have huniq0 : ((L1 ++ c :: L2).map Block.id).Nodup := by
    rw [← hdec]
    exact huniq
  have hfm0 : s.freeMap.Perm
      (((L1 ++ c :: L2).filter (fun b => b.isFree)).map (fun b => (b.size, b.id))) := by
    rw [← hdec]
    exact hfm
  have hfresh0 : ∀ b ∈ L1 ++ c :: L2, b.id < s.nextId := by
    rw [← hdec]
    exact hfresh
  have hpartF : isPart 0 (L1 ++ { c with isFree := true } :: L2) s.alignedSize = true :=
    isPart_subst hpart0 rfl rfl
  have hallocE : ∀ q ∈ mapErase s.allocations off, q.2.offset = q.1 ∧
      ∃ d, (d ∈ L1 ∨ d ∈ L2) ∧ d.id = q.2.blockId ∧ d.offset = q.1 ∧ d.isFree = false := by
    intro q hq
    obtain ⟨hqmem, hqne⟩ := mem_mapErase_strict hkeys hq
    obtain ⟨hqo, d, hdmem, hdid, hdoff, hdused⟩ := halloc q hqmem
    rw [hdec] at hdmem
    have hdc : d ≠ c := by
      intro hdc
      exact hqne (by rw [← hdoff, hdc, hcoff])
    refine ⟨hqo, d, ?_, hdid, hdoff, hdused⟩
    rcases List.mem_append.mp hdmem with h2 | h2
    · exact Or.inl h2
    · rcases List.mem_cons.mp h2 with h2 | h2
      · exact absurd h2 hdc
      · exact Or.inr h2
  have hkeysE : List.Pairwise (fun e f => e.1 < f.1) (mapErase s.allocations off) :=
    hkeys.sublist (mapErase_sublist _ _)
  rcases List.eq_nil_or_concat L1 with hL1 | ⟨K, p, hL1⟩
  · -- the freed block is the first block: no previous-merge
    subst hL1
    have hcoalEq : CoalesceAdjacentFreeBlocks info.blockId
        (([] : List Block) ++ { c with isFree := true } :: L2) =
        mergeNext { c with isFree := true } L2 := by
      rw [CoalesceAdjacentFreeBlocks_decomp (b := { c with isFree := true }) h1 hcid]
      simp
    have hchainL2 : List.Chain' adjOK L2 := by
      have h2 : List.Chain' adjOK (c :: L2) := by simpa [NoAdjacentFree] using hadj0
      exact (List.chain'_cons'.mp h2).2
    have spec := @mergeNext_spec [] L2 { c with isFree := true }
      s.alignedSize s.nextId s.freeMap hA hpartF
      List.chain'_nil (by intro x hx; simp at hx) hchainL2 rfl
      (by simpa using huniq0)
      (by
        intro b hb
        simp only [List.nil_append, List.mem_cons] at hb
        rcases hb with hb | hb
        · rw [hb]
          exact hfresh0 c (by simp)
        · exact hfresh0 b (by simp [hb]))
      (by
        refine hfm0.trans (List.Perm.of_eq ?_)
        simp [List.filter_cons, hcused])
      hsort
    simp only [List.nil_append] at spec
    have hstate : freeFound s off info = { s with
        blocks := (mergeNext { c with isFree := true } L2).blocks
        freeMap := applyCoal (mergeNext { c with isFree := true } L2) s.freeMap
        blockByOffset :=
          (mergeNext { c with isFree := true } L2).removedOffsets.foldl offErase s.blockByOffset
        allocations := mapErase s.allocations off } := by
      simp only [freeFound]
      rw [hset]
      simp only [List.nil_append] at hcoalEq ⊢
      rw [hcoalEq]
    rw [hstate]
    refine ⟨hA, spec.1, spec.2.1, spec.2.2.1, spec.2.2.2.1, spec.2.2.2.2.1,
      spec.2.2.2.2.2.1, ?_, hkeysE⟩
    intro q hq
    obtain ⟨hqo, d, hdmem, hdid, hdoff, hdused⟩ := hallocE q hq
    refine ⟨hqo, d, ?_, hdid, hdoff, hdused⟩
    refine spec.2.2.2.2.2.2 d ?_ hdused
    rcases hdmem with h2 | h2
    · simp at h2
    · exact List.mem_cons_of_mem _ h2
  · -- the freed block has a previous block p
    subst hL1
    rw [List.concat_eq_append] at h1 hset hpart0 hadj0 huniq0 hfm0 hfresh0 hpartF hallocE
    have hpmem : p ∈ K ++ [p] := List.mem_append_right _ (List.mem_cons_self _ _)
    have hassoc : (K ++ [p]) ++ c :: L2 = K ++ p :: c :: L2 := by simp
    have hpart0p : isPart 0 (K ++ p :: c :: L2) s.alignedSize = true := by
      rw [← hassoc]
      exact hpart0
    have huniq1 : ((K ++ p :: c :: L2).map Block.id).Nodup := by
      rw [← hassoc]
      exact huniq0
    have hadjpc : p.offset + p.size = c.offset := isPart_adjacent hpart0p
    have hbc : c.offset + c.size ≤ s.alignedSize := by
      have h2 := isPart_bound hpart0 c (List.mem_append_right _ (List.mem_cons_self _ _))
      exact h2.2
    have hltp : p.offset + p.size < U32 := by omega
    have hbeqp : ((p.offset + p.size) % U32 ==
        ({ c with isFree := true } : Block).offset) = true := by
      show ((p.offset + p.size) % U32 == c.offset) = true
      rw [Nat.mod_eq_of_lt hltp, hadjpc]
      exact beq_self_eq_true _
    have hadj1 : List.Chain' adjOK ((K ++ [p]) ++ c :: L2) := by
      simpa [NoAdjacentFree] using hadj0
    obtain ⟨hchFront, hchCL2, hlinkC⟩ := List.chain'_append.mp hadj1
    have hchainL2 : List.Chain' adjOK L2 := (List.chain'_cons'.mp hchCL2).2
    obtain ⟨hchK, -, hlinkKp⟩ := List.chain'_append.mp hchFront
    have hcoalEq := @CoalesceAdjacentFreeBlocks_decomp (K ++ [p]) L2
      { c with isFree := true } _ h1 hcid
    simp only [List.getLast?_concat, List.dropLast_concat] at hcoalEq
    by_cases hpf : p.isFree = true
    · -- previous block is free: merge into it
      have hcond : (p.isFree &&
          ((p.offset + p.size) % U32 == ({ c with isFree := true } : Block).offset)) = true := by
        rw [hpf, hbeqp]
        rfl
      rw [if_pos hcond] at hcoalEq
      have hsum1 : p.size + c.size < U32 := by omega
      have hm1sz : (p.size + ({ c with isFree := true } : Block).size) % U32 =
          p.size + c.size := by
        show (p.size + c.size) % U32 = p.size + c.size
        exact Nat.mod_eq_of_lt hsum1
      rw [hm1sz] at hcoalEq
      have hKlast : ∀ x, K.getLast? = some x → x.isFree = false := by
        intro x hx
        have h2 := hlinkKp x (Option.mem_def.mpr hx) p (Option.mem_def.mpr rfl)
        exact adjOK_resolve_left h2 hpf
      have hKp_ne : ∀ x ∈ K, x.id ≠ p.id := by
        intro x hx
        exact nodup_append_ne huniq1 hx (List.mem_cons_self _ _)
      have hfm1 : s.freeMap.Perm
          ((K.filter (fun b => b.isFree)).map (fun b => (b.size, b.id)) ++
            (p.size, p.id) :: (L2.filter (fun b => b.isFree)).map (fun b => (b.size, b.id))) := by
        refine hfm0.trans (List.Perm.of_eq ?_)
        simp [List.filter_append, List.filter_cons, hpf, hcused]
      have hfmBase : (RemoveFromFreeMap s.freeMap p.size p.id).Perm
          ((K.filter (fun b => b.isFree)).map (fun b => (b.size, b.id)) ++
            (L2.filter (fun b => b.isFree)).map (fun b => (b.size, b.id))) := by
        have h2 := RemoveFromFreeMap_perm hfm1 p.size p.id
        rwa [RemoveFromFreeMap_append_right _ (pair_not_mem_mp hKp_ne),
          RemoveFromFreeMap_cons_self] at h2
      have hassocF : (K ++ [p]) ++ { c with isFree := true } :: L2 =
          K ++ p :: { c with isFree := true } :: L2 := by simp
      have hpartM : isPart 0
          (K ++ ({ p with size := p.size + c.size } : Block) :: L2) s.alignedSize = true := by
        rw [hassocF] at hpartF
        exact isPart_merge hpartF rfl rfl
      have spec := @mergeNext_spec K L2 { p with size := p.size + c.size }
        s.alignedSize s.nextId
        (RemoveFromFreeMap s.freeMap p.size p.id)
        hA hpartM hchK hKlast hchainL2 hpf
        (by
          simp only [List.map_append, List.map_cons]
          show ((K.map Block.id) ++ p.id :: L2.map Block.id).Nodup
          refine huniq1.sublist ?_
          simp only [List.map_append, List.map_cons]
          refine List.Sublist.append_left ?_ _
          exact (List.sublist_cons_self c.id (L2.map Block.id)).cons₂ p.id)
        (by
          intro b hb
          rcases List.mem_append.mp hb with hb | hb
          · exact hfresh0 b (List.mem_append_left _ (List.mem_append_left _ hb))
          · rcases List.mem_cons.mp hb with hb | hb
            · rw [hb]
              exact hfresh0 p (List.mem_append_left _ hpmem)
            · exact hfresh0 b (List.mem_append_right _ (List.mem_cons_of_mem _ hb)))
        hfmBase
        (hsort.sublist (RemoveFromFreeMap_sublist _ _ _))
      have hstate : freeFound s off info = { s with
          blocks := K ++ (mergeNext ({ p with size := p.size + c.size } : Block) L2).blocks
          freeMap := applyCoal (mergeNext ({ p with size := p.size + c.size } : Block) L2)
            (RemoveFromFreeMap s.freeMap p.size p.id)
          blockByOffset :=
            (mergeNext ({ p with size := p.size + c.size } : Block) L2).removedOffsets.foldl
              offErase (offErase s.blockByOffset ({ c with isFree := true } : Block).offset)
          allocations := mapErase s.allocations off } := by
        simp only [freeFound]
        rw [hset, hcoalEq]
        rfl
      rw [hstate]
      refine ⟨hA, spec.1, spec.2.1, spec.2.2.1, spec.2.2.2.1, spec.2.2.2.2.1,
        spec.2.2.2.2.2.1, ?_, hkeysE⟩
      intro q hq
      obtain ⟨hqo, d, hdmem, hdid, hdoff, hdused⟩ := hallocE q hq
      refine ⟨hqo, d, ?_, hdid, hdoff, hdused⟩
      refine spec.2.2.2.2.2.2 d ?_ hdused
      rcases hdmem with h2 | h2
      · rcases List.mem_append.mp h2 with h3 | h3
        · exact List.mem_append_left _ h3
        · rcases List.mem_cons.mp h3 with h3 | h3
          · rw [h3] at hdused
            rw [hpf] at hdused
            simp at hdused
          · simp at h3
      · exact List.mem_append_right _ (List.mem_cons_of_mem _ h2)
    · -- previous block is used: no previous-merge
      have hpf2 : p.isFree = false := by
        cases h2 : p.isFree with
        | false => rfl
        | true => exact absurd h2 hpf
      have hncond : ¬((p.isFree &&
          ((p.offset + p.size) % U32 ==
            ({ c with isFree := true } : Block).offset)) = true) := by
        rw [hpf2]
        simp
      rw [if_neg hncond] at hcoalEq
      have spec := @mergeNext_spec (K ++ [p]) L2 { c with isFree := true }
        s.alignedSize s.nextId s.freeMap
        hA hpartF hchFront
        (by
          intro x hx
          rw [List.getLast?_concat] at hx
          have h2 : p = x := by
            injection hx
          rw [← h2]
          exact hpf2)
        hchainL2 rfl
        (by simpa using huniq0)
        (by
          intro b hb
          rcases List.mem_append.mp hb with hb | hb
          · exact hfresh0 b (List.mem_append_left _ hb)
          · rcases List.mem_cons.mp hb with hb | hb
            · rw [hb]
              exact hfresh0 c (List.mem_append_right _ (List.mem_cons_self _ _))
            · exact hfresh0 b (List.mem_append_right _ (List.mem_cons_of_mem _ hb)))
        (by
          refine hfm0.trans (List.Perm.of_eq ?_)
          simp [List.filter_append, List.filter_cons, hpf2, hcused])
        hsort
      have hstate : freeFound s off info = { s with
          blocks := (K ++ [p]) ++ (mergeNext ({ c with isFree := true } : Block) L2).blocks
          freeMap := applyCoal (mergeNext ({ c with isFree := true } : Block) L2) s.freeMap
          blockByOffset :=
            (mergeNext ({ c with isFree := true } : Block) L2).removedOffsets.foldl
              offErase s.blockByOffset
          allocations := mapErase s.allocations off } := by
        simp only [freeFound]
        rw [hset, hcoalEq]
        rfl
      rw [hstate]
      refine ⟨hA, spec.1, spec.2.1, spec.2.2.1, spec.2.2.2.1, spec.2.2.2.2.1,
        spec.2.2.2.2.2.1, ?_, hkeysE⟩
      intro q hq
      obtain ⟨hqo, d, hdmem, hdid, hdoff, hdused⟩ := hallocE q hq
      refine ⟨hqo, d, ?_, hdid, hdoff, hdused⟩
      refine spec.2.2.2.2.2.2 d ?_ hdused
      rcases hdmem with h2 | h2
      · exact List.mem_append_left _ h2
      · exact List.mem_append_right _ (List.mem_cons_of_mem _ h2)

end HeapAllocator

namespace HeapAllocator

theorem Free_inv {s : HeapState} (hInv : Inv s) (off : Nat) : Inv (Free s off) := by
  by_cases h1 : off % U32 = U32 - 1
  · rw [Free_eq_sentinel h1]
    exact hInv
  · rcases h2 : mapFind s.allocations (off % U32) with _ | info
    · rw [Free_eq_unknown h1 h2]
      exact hInv
    · rw [Free_eq_found h1 h2]
      exact freeFound_inv hInv h2

theorem Allocate_config (s : HeapState) (n : Nat) :
    (Allocate s n).2.numElements = s.numElements ∧
    (Allocate s n).2.elementSize = s.elementSize ∧
    (Allocate s n).2.alignment = s.alignment ∧
    (Allocate s n).2.alignedSize = s.alignedSize := by
  rcases hlb : lowerBound s.freeMap (AlignSize (n % U32) s.alignment % U32) with _ | e
  · rw [Allocate_eq_none hlb]
    exact ⟨rfl, rfl, rfl, rfl⟩
  · rcases hfb : findBlock s.blocks e.2 with _ | b
    · rw [Allocate_eq_fb_none hlb hfb]
      exact ⟨rfl, rfl, rfl, rfl⟩
    · rw [Allocate_eq_found hlb hfb]
      exact ⟨rfl, rfl, rfl, rfl⟩

theorem Free_config (s : HeapState) (off : Nat) :
    (Free s off).numElements = s.numElements ∧
    (Free s off).elementSize = s.elementSize ∧
    (Free s off).alignment = s.alignment ∧
    (Free s off).alignedSize = s.alignedSize := by
  by_cases h1 : off % U32 = U32 - 1
  · rw [Free_eq_sentinel h1]
    exact ⟨rfl, rfl, rfl, rfl⟩
  · rcases h2 : mapFind s.allocations (off % U32) with _ | info
    · rw [Free_eq_unknown h1 h2]
      exact ⟨rfl, rfl, rfl, rfl⟩
    · rw [Free_eq_found h1 h2]
      exact ⟨rfl, rfl, rfl, rfl⟩

end HeapAllocator

theorem heapStep_inv {s : HeapState} (hInv : HeapAllocator.Inv s) (op : HeapOp) :
    HeapAllocator.Inv (heapStep s op) := by
  cases op with
  | alloc n => exact HeapAllocator.Allocate_inv hInv n
  | free off => exact HeapAllocator.Free_inv hInv off

theorem heapStep_config (s : HeapState) (op : HeapOp) :
    (heapStep s op).numElements = s.numElements ∧
    (heapStep s op).elementSize = s.elementSize ∧
    (heapStep s op).alignment = s.alignment ∧
    (heapStep s op).alignedSize = s.alignedSize := by
  cases op with
  | alloc n => exact HeapAllocator.Allocate_config s n
  | free off => exact HeapAllocator.Free_config s off

theorem runHeap_inv (ne es al : Nat) (ops : List HeapOp) :
    HeapAllocator.Inv (runHeap ne es al ops) := by
  rw [runHeap]
  have h : ∀ s : HeapState, HeapAllocator.Inv s → HeapAllocator.Inv (ops.foldl heapStep s) := by
    induction ops with
    | nil => exact fun s hs => hs
    | cons op ops ih => exact fun s hs => ih _ (heapStep_inv hs op)
  exact h _ (HeapAllocator.initState_inv ne es al)

theorem runHeap_config (ne es al : Nat) (ops : List HeapOp) :
    (runHeap ne es al ops).numElements = ne % U32 ∧
    (runHeap ne es al ops).elementSize = es % U32 ∧
    (runHeap ne es al ops).alignment = al % U32 ∧
    (runHeap ne es al ops).alignedSize =
      AlignSize ((ne % U32) * (es % U32)) (al % U32) % U32 := by
  rw [runHeap]
  have h : ∀ s : HeapState,
      (ops.foldl heapStep s).numElements = s.numElements ∧
      (ops.foldl heapStep s).elementSize = s.elementSize ∧
      (ops.foldl heapStep s).alignment = s.alignment ∧
      (ops.foldl heapStep s).alignedSize = s.alignedSize := by
    induction ops with
    | nil => exact fun s => ⟨rfl, rfl, rfl, rfl⟩
    | cons op ops ih =>
      intro s
      obtain ⟨i1, i2, i3, i4⟩ := ih (heapStep s op)
      obtain ⟨c1, c2, c3, c4⟩ := heapStep_config s op
      exact ⟨i1.trans c1, i2.trans c2, i3.trans c3, i4.trans c4⟩
  obtain ⟨h1, h2, h3, h4⟩ := h (HeapAllocator.initState ne es al)
  exact ⟨h1, h2, h3, h4⟩

/-- C2: for every sequence of allocate/free operations applied to a freshly
initialized allocator, the ordered block sequence exactly partitions
`[0, totalAlignedSize)`: the first block has offset 0, each block's offset
plus its size is the next block's offset, and the last block ends at
`totalAlignedSize` — which stays equal to the aligned total computed at
initialization. -/
theorem blocks_partition_invariant (ne es al : Nat) (ops : List HeapOp) :
    HeapAllocator.isPart 0 (runHeap ne es al ops).blocks
      (runHeap ne es al ops).alignedSize = true ∧
    (runHeap ne es al ops).alignedSize =
      AlignSize ((ne % U32) * (es % U32)) (al % U32) % U32 :=
  ⟨(runHeap_inv ne es al ops).2.1, (runHeap_config ne es al ops).2.2.2⟩

/-- C5: in every state reachable from a freshly initialized allocator by
allocate/free calls — in particular after every free — no two adjacent
blocks of the ordered block sequence are both free. -/
theorem no_adjacent_free_invariant (ne es al : Nat) (ops : List HeapOp) :
    HeapAllocator.NoAdjacentFree (runHeap ne es al ops).blocks :=
  (runHeap_inv ne es al ops).2.2.1

/-- C7: calling Free with an offset that is neither the `(uint32_t)-1`
sentinel nor a currently live allocation (no record in the allocation table)
is the `FreeOfUnknownOffset` error case: the entire allocator state — block
sequence, both indices, allocation table — and hence every subsequent
`GetStats` result is exactly as before the call. -/
theorem free_unknown_offset_noop (s : HeapState) (off : Nat)
    (h1 : off % U32 ≠ U32 - 1)
    (h2 : HeapAllocator.mapFind s.allocations (off % U32) = none) :
    HeapAllocator.Free s off = s ∧
    HeapAllocator.GetStats (HeapAllocator.Free s off) = HeapAllocator.GetStats s := by
  have h3 := HeapAllocator.Free_eq_unknown h1 h2
  exact ⟨h3, by rw [h3]⟩

/-- Witness for C7 at a concrete state and offset. -/
theorem free_unknown_offset_noop_witness :
    HeapAllocator.Free (HeapAllocator.initState 4 256 256) 512 =
      HeapAllocator.initState 4 256 256 ∧
    HeapAllocator.GetStats (HeapAllocator.Free (HeapAllocator.initState 4 256 256) 512) =
      HeapAllocator.GetStats (HeapAllocator.initState 4 256 256) :=
  free_unknown_offset_noop (HeapAllocator.initState 4 256 256) 512
    (by decide) (by decide)

/-- C10: the inner allocator signals failure with `2^32 - 1`, so
`HeapManager::Allocate` hands exactly 0 to its caller by unsigned 32-bit
wraparound of the `+ RESERVED_OFFSET`; `HeapManager::Free(0)` forwards
`0 - 1 = 2^32 - 1 (mod 2^32)`, which the inner Free treats as a guaranteed
no-op that leaves the state untouched; and `GetGPUVirtualAddress(0)` /
`GetMappedPtr(0)` return the null address / null pointer. -/
theorem reserved_offset_wraparound :
    (∀ (s : HeapState) (n : Nat), (HeapAllocator.Allocate s n).1 = U32 - 1 →
      (HeapManager.Allocate s n).1 = 0) ∧
    (∀ s : HeapState, HeapManager.Free s 0 = s ∧
      (0 % U32 + (U32 - HeapManager.RESERVED_OFFSET)) % U32 = U32 - 1) ∧
    (∀ g : Nat, HeapManager.GetGPUVirtualAddress g 0 = 0) ∧
    (∀ ptr : Nat, HeapManager.GetMappedPtr ptr 0 = 0) := by
  refine ⟨?_, ?_, ?_, ?_⟩
  · intro s n h
    show ((HeapAllocator.Allocate s n).1 + HeapManager.RESERVED_OFFSET) % U32 = 0
    rw [h]
    decide
  · intro s
    refine ⟨?_, by decide⟩
    show HeapAllocator.Free s ((0 % U32 + (U32 - HeapManager.RESERVED_OFFSET)) % U32) = s
    exact HeapAllocator.Free_eq_sentinel (by decide)
  · intro g
    simp [HeapManager.GetGPUVirtualAddress]
  · intro ptr
    simp [HeapManager.GetMappedPtr]

/-- Witness for C10: on a full 16-byte heap a 2000-byte request fails inside
the allocator and the manager returns 0; freeing 0 is a no-op. -/
theorem reserved_offset_wraparound_witness :
    (HeapManager.Allocate (HeapAllocator.initState 1 16 16) 2000).1 = 0 ∧
    HeapManager.Free (HeapAllocator.initState 1 16 16) 0 =
      HeapAllocator.initState 1 16 16 :=
  ⟨reserved_offset_wraparound.1 (HeapAllocator.initState 1 16 16) 2000 (by decide),
   (reserved_offset_wraparound.2.1 (HeapAllocator.initState 1 16 16)).1⟩

theorem AlignSize_of_dvd {x al : Nat} (h0 : al ≠ 0) (h : al ∣ x) : AlignSize x al = x := by
  obtain ⟨k, rfl⟩ := h
  have hal : 0 < al := Nat.pos_of_ne_zero h0
  rw [AlignSize]
  rw [show al * k + al - 1 = al - 1 + k * al by ring_nf; omega]
  rw [Nat.add_mul_div_right _ _ hal, Nat.div_eq_of_lt (by omega)]
  ring

/-- C8 counterexample: `GetStats().totalSize` is the unaligned 32-bit product
`numElements * elementSize` (here `3 * 5 = 15`), not the aligned total
`totalAlignedSize = 16` that the block sequence partitions and that the
initial free block (and hence `largestFreeBlock`) spans. -/
theorem stats_totalSize_counterexample :
    (HeapAllocator.GetStats (HeapAllocator.initState 3 5 4)).totalSize = 15 ∧
    (HeapAllocator.initState 3 5 4).alignedSize = 16 ∧
    (HeapAllocator.GetStats (HeapAllocator.initState 3 5 4)).totalSize ≠
      (HeapAllocator.initState 3 5 4).alignedSize ∧
    (HeapAllocator.GetStats (HeapAllocator.initState 3 5 4)).largestFreeBlock = 16 := by
  decide

/-- C8 amended: in every reachable state, `GetStats().totalSize` equals the
32-bit product `numElements * elementSize` — the unaligned value, constant
across operations.  Whenever the alignment divides that product and the
product fits in 32 bits (in particular in the deployed configurations where
`alignment = elementSize`), this coincides with `totalAlignedSize`; in the
freshly initialized all-free state `largestFreeBlock` equals
`totalAlignedSize`, and under the same divisibility conditions
`totalSize - usedSize` equals the sum of the free-block sizes. -/
theorem stats_totalSize_amended (ne es al : Nat) (ops : List HeapOp) :
    (HeapAllocator.GetStats (runHeap ne es al ops)).totalSize =
      (ne % U32) * (es % U32) % U32 ∧
    ((al % U32) ∣ (ne % U32) * (es % U32) → (ne % U32) * (es % U32) < U32 →
      (al % U32) ≠ 0 →
      (HeapAllocator.GetStats (runHeap ne es al ops)).totalSize =
        (runHeap ne es al ops).alignedSize) ∧
    (HeapAllocator.GetStats (HeapAllocator.initState ne es al)).largestFreeBlock =
      (HeapAllocator.initState ne es al).alignedSize ∧
    ((al % U32) ∣ (ne % U32) * (es % U32) → (ne % U32) * (es % U32) < U32 →
      (al % U32) ≠ 0 →
      (HeapAllocator.GetStats (HeapAllocator.initState ne es al)).totalSize -
          (HeapAllocator.GetStats (HeapAllocator.initState ne es al)).usedSize =
        HeapAllocator.sizeSum
          ((HeapAllocator.initState ne es al).blocks.filter (fun b => b.isFree))) := by
  obtain ⟨h1, h2, h3, h4⟩ := runHeap_config ne es al ops
  refine ⟨?_, ?_, ?_, ?_⟩
  · show (runHeap ne es al ops).numElements * (runHeap ne es al ops).elementSize % U32 = _
    rw [h1, h2]
  · intro hdvd hlt hal
    show (runHeap ne es al ops).numElements * (runHeap ne es al ops).elementSize % U32 = _
    rw [h1, h2, h4, AlignSize_of_dvd hal hdvd]
  · show _ = AlignSize ((ne % U32) * (es % U32)) (al % U32) % U32
    simp [HeapAllocator.GetStats, HeapAllocator.initState]
  · intro hdvd hlt hal
    show (HeapAllocator.initState ne es al).numElements *
        (HeapAllocator.initState ne es al).elementSize % U32 - _ = _
    simp [HeapAllocator.GetStats, HeapAllocator.initState, HeapAllocator.sizeSum,
      AlignSize_of_dvd hal hdvd]

/-- Witness for C8 amended in the deployed configuration (4 elements of 256
bytes, alignment = element size) after one allocation. -/
theorem stats_totalSize_amended_witness :
    (HeapAllocator.GetStats (runHeap 4 256 256 [HeapOp.alloc 100])).totalSize =
      (4 % U32) * (256 % U32) % U32 ∧
    (HeapAllocator.GetStats (runHeap 4 256 256 [HeapOp.alloc 100])).totalSize =
      (runHeap 4 256 256 [HeapOp.alloc 100]).alignedSize ∧
    (HeapAllocator.GetStats (HeapAllocator.initState 4 256 256)).largestFreeBlock =
      (HeapAllocator.initState 4 256 256).alignedSize :=
  ⟨(stats_totalSize_amended 4 256 256 [HeapOp.alloc 100]).1,
   (stats_totalSize_amended 4 256 256 [HeapOp.alloc 100]).2.1
     (by decide) (by decide) (by decide),
   (stats_totalSize_amended 4 256 256 [HeapOp.alloc 100]).2.2.1⟩

/-- C9 counterexample: with alignment 256, a successful allocation at
internal offset 0 is exposed as adapter-facing offset 1 — the reserved bias
is the fixed constant 1, not one alignment unit (which would give 256). -/
theorem reserved_bias_counterexample :
    (HeapAllocator.Allocate (HeapAllocator.initState 4 256 256) 100).1 = 0 ∧
    (HeapAllocator.initState 4 256 256).alignment = 256 ∧
    (HeapManager.Allocate (HeapAllocator.initState 4 256 256) 100).1 = 1 ∧
    (HeapManager.Allocate (HeapAllocator.initState 4 256 256) 100).1 ≠
      (HeapAllocator.Allocate (HeapAllocator.initState 4 256 256) 100).1 +
        (HeapAllocator.initState 4 256 256).alignment := by
  decide

namespace HeapAllocator

theorem allocateFound_result {s : HeapState} (huniq : (s.blocks.map Block.id).Nodup)
    {a : Nat} {b : Block} (hb : b ∈ s.blocks) :
    (allocateFound s a b).1 = b.offset ∧
    ∃ c ∈ (allocateFound s a b).2.blocks,
      c.id = b.id ∧ c.offset = b.offset ∧ c.isFree = false := by
  obtain ⟨L1, L2, hdec, h1⟩ := findBlock_decomp (findBlock_of_mem_nodup huniq hb rfl)
  refine ⟨rfl, ?_⟩
  by_cases hsplit : a < b.size
  · have hsb : SplitBlock b.id a s.nextId s.blocks =
        L1 ++ { b with size := a } ::
          (⟨s.nextId, (b.offset + a) % U32, b.size - a, true⟩ : Block) :: L2 := by
      rw [hdec]
      exact SplitBlock_decomp a s.nextId h1 rfl
    have hset : setIsFree b.id false (SplitBlock b.id a s.nextId s.blocks) =
        L1 ++ (⟨b.id, b.offset, a, false⟩ : Block) ::
          (⟨s.nextId, (b.offset + a) % U32, b.size - a, true⟩ : Block) :: L2 := by
      rw [hsb]
      exact setIsFree_decomp false h1 rfl
    refine ⟨⟨b.id, b.offset, a, false⟩, ?_, rfl, rfl, rfl⟩
    show _ ∈ (allocateFound s a b).2.blocks
    simp only [allocateFound, if_pos hsplit]
    rw [hset]
    exact List.mem_append_right _ (List.mem_cons_self _ _)
  · have hset : setIsFree b.id false s.blocks =
        L1 ++ (⟨b.id, b.offset, b.size, false⟩ : Block) :: L2 := by
      rw [hdec]
      exact setIsFree_decomp false h1 rfl
    refine ⟨⟨b.id, b.offset, b.size, false⟩, ?_, rfl, rfl, rfl⟩
    show _ ∈ (allocateFound s a b).2.blocks
    simp only [allocateFound, if_neg hsplit]
    rw [hset]
    exact List.mem_append_right _ (List.mem_cons_self _ _)

theorem Allocate_offset_lt {s : HeapState} (hInv : Inv s) (n : Nat)
    (h : (Allocate s n).1 ≠ U32 - 1) : (Allocate s n).1 < U32 := by
  rcases hlb : lowerBound s.freeMap (AlignSize (n % U32) s.alignment % U32) with _ | e
  · rw [Allocate_eq_none hlb] at h
    exact absurd rfl h
  · rcases hfb : findBlock s.blocks e.2 with _ | b
    · rw [Allocate_eq_fb_none hlb hfb] at h
      exact absurd rfl h
    · rw [Allocate_eq_found hlb hfb]
      show b.offset < U32
      have hbmem : b ∈ s.blocks := (findBlock_some hfb).1
      have hbd := isPart_bound hInv.2.1 b hbmem
      have hA := hInv.1
      omega

end HeapAllocator

/-- C9 amended: the adapter-facing bias is the fixed constant
`RESERVED_OFFSET = 1` (one byte, not one alignment unit): every successful
allocation comes back from `HeapManager::Allocate` as the allocator-internal
offset plus 1, the adapter-facing value 0 is left to mean "no allocation",
and `HeapManager::Free` subtracts the same constant before forwarding, so
the bias is a round-trip identity on live offsets. -/
theorem reserved_bias_amended :
    HeapManager.RESERVED_OFFSET = 1 ∧
    ∀ (s : HeapState), HeapAllocator.Inv s → ∀ n : Nat,
      (HeapAllocator.Allocate s n).1 ≠ U32 - 1 →
      (HeapManager.Allocate s n).1 = (HeapAllocator.Allocate s n).1 + 1 ∧
      ∀ s2 : HeapState,
        HeapManager.Free s2 (HeapManager.Allocate s n).1 =
          HeapAllocator.Free s2 (HeapAllocator.Allocate s n).1 := by
  refine ⟨rfl, ?_⟩
  intro s hInv n hsucc
  have hU : U32 = 4294967296 := rfl
  have hlt : (HeapAllocator.Allocate s n).1 < U32 :=
    HeapAllocator.Allocate_offset_lt hInv n hsucc
  have hlt2 : (HeapAllocator.Allocate s n).1 + 1 < U32 := by omega
  have hout : (HeapManager.Allocate s n).1 = (HeapAllocator.Allocate s n).1 + 1 := by
    show ((HeapAllocator.Allocate s n).1 + HeapManager.RESERVED_OFFSET) % U32 = _
    show ((HeapAllocator.Allocate s n).1 + 1) % U32 = _
    exact Nat.mod_eq_of_lt hlt2
  refine ⟨hout, ?_⟩
  intro s2
  rw [hout]
  show HeapAllocator.Free s2
      ((((HeapAllocator.Allocate s n).1 + 1) % U32 +
        (U32 - HeapManager.RESERVED_OFFSET)) % U32) = _
  have harg : (((HeapAllocator.Allocate s n).1 + 1) % U32 +
      (U32 - HeapManager.RESERVED_OFFSET)) % U32 = (HeapAllocator.Allocate s n).1 := by
    show (((HeapAllocator.Allocate s n).1 + 1) % U32 + (U32 - 1)) % U32 = _
    rw [Nat.mod_eq_of_lt hlt2]
    rw [show (HeapAllocator.Allocate s n).1 + 1 + (U32 - 1) =
      (HeapAllocator.Allocate s n).1 + U32 by omega]
    rw [Nat.add_mod_right]
    exact Nat.mod_eq_of_lt hlt
  rw [harg]

/-- Witness for C9 amended at a concrete allocator and request. -/
theorem reserved_bias_amended_witness :
    (HeapManager.Allocate (HeapAllocator.initState 4 256 256) 100).1 =
      (HeapAllocator.Allocate (HeapAllocator.initState 4 256 256) 100).1 + 1 ∧
    HeapManager.Free (HeapAllocator.Allocate (HeapAllocator.initState 4 256 256) 100).2
        (HeapManager.Allocate (HeapAllocator.initState 4 256 256) 100).1 =
      HeapAllocator.Free (HeapAllocator.Allocate (HeapAllocator.initState 4 256 256) 100).2
        (HeapAllocator.Allocate (HeapAllocator.initState 4 256 256) 100).1 :=
  ⟨(reserved_bias_amended.2 (HeapAllocator.initState 4 256 256)
      (HeapAllocator.initState_inv 4 256 256) 100 (by decide)).1,
   (reserved_bias_amended.2 (HeapAllocator.initState 4 256 256)
      (HeapAllocator.initState_inv 4 256 256) 100 (by decide)).2
    (HeapAllocator.Allocate (HeapAllocator.initState 4 256 256) 100).2⟩

/-- C4 counterexample: the fail-iff-no-fit direction is broken by 32-bit
wraparound of the aligned request. On a 16-byte heap with alignment 16,
requesting 0xFFFFFFFF bytes aligns mathematically to 2^32, which no free
block can hold — yet the stored `uint32_t` aligned size wraps to 0, so
`Allocate` finds a "fit", succeeds (no `AllocationFailed`), and mutates the
allocator state, contradicting the claimed failure with unchanged state. -/
theorem allocate_fail_iff_counterexample :
    (∀ b ∈ (HeapAllocator.initState 1 16 16).blocks, b.isFree = true →
      b.size < AlignSize (4294967295 % U32) (HeapAllocator.initState 1 16 16).alignment) ∧
    (HeapAllocator.Allocate (HeapAllocator.initState 1 16 16) 4294967295).1 ≠ U32 - 1 ∧
    (HeapAllocator.Allocate (HeapAllocator.initState 1 16 16) 4294967295).2 ≠
      HeapAllocator.initState 1 16 16 := by decide

/-- C4 amended: with the aligned request taken modulo 2^32 (as the code
stores it in a `uint32_t`), `Allocate` fails with the sentinel and leaves the
state bit-for-bit unchanged if and only if no currently-free block has size
at least that wrapped aligned request; in the failure case `GetStats` is
unchanged as well. -/
theorem allocate_fail_iff_amended (s : HeapState) (hInv : HeapAllocator.Inv s) (n : Nat) :
    (((HeapAllocator.Allocate s n).1 = U32 - 1 ∧ (HeapAllocator.Allocate s n).2 = s) ↔
      (∀ b ∈ s.blocks, b.isFree = true →
        b.size < AlignSize (n % U32) s.alignment % U32)) ∧
    ((∀ b ∈ s.blocks, b.isFree = true →
        b.size < AlignSize (n % U32) s.alignment % U32) →
      HeapAllocator.GetStats (HeapAllocator.Allocate s n).2 =
        HeapAllocator.GetStats s) := by
  have huniq := hInv.2.2.2.1
  have hfm := hInv.2.2.2.2.2.1
  have hiff : ((HeapAllocator.Allocate s n).1 = U32 - 1 ∧
      (HeapAllocator.Allocate s n).2 = s) ↔
      (∀ b ∈ s.blocks, b.isFree = true →
        b.size < AlignSize (n % U32) s.alignment % U32) := by
    constructor
    · rintro ⟨h1, h2⟩
      intro b hb hbfree
      by_contra hge
      push_neg at hge
      have hmem : (b.size, b.id) ∈ s.freeMap :=
        hfm.mem_iff.mpr (List.mem_map.mpr
          ⟨b, List.mem_filter.mpr ⟨hb, by simp [hbfree]⟩, rfl⟩)
      rcases hlb : HeapAllocator.lowerBound s.freeMap
          (AlignSize (n % U32) s.alignment % U32) with _ | e
      · have hlt := (HeapAllocator.lowerBound_none_iff.mp hlb) _ hmem
        simp only at hlt
        omega
      · obtain ⟨he, -⟩ := HeapAllocator.lowerBound_some_mem hlb
        obtain ⟨c, hc, hpair⟩ := List.mem_map.mp (hfm.mem_iff.mp he)
        have hcmem : c ∈ s.blocks := List.mem_of_mem_filter hc
        have hcfree : c.isFree = true := by
          have := List.of_mem_filter hc
          simpa using this
        have hfb : HeapAllocator.findBlock s.blocks e.2 = some c :=
          HeapAllocator.findBlock_of_mem_nodup huniq hcmem (congrArg Prod.snd hpair)
        rw [HeapAllocator.Allocate_eq_found hlb hfb] at h2
        obtain ⟨-, c2, hc2mem, hc2id, -, hc2free⟩ :=
          HeapAllocator.allocateFound_result huniq hcmem
            (a := AlignSize (n % U32) s.alignment % U32)
        rw [h2] at hc2mem
        have hceq : c2 = c := HeapAllocator.eq_of_mem_id huniq hc2mem hcmem hc2id
        rw [hceq, hcfree] at hc2free
        exact Bool.noConfusion hc2free
    · intro hall
      rcases hlb : HeapAllocator.lowerBound s.freeMap
          (AlignSize (n % U32) s.alignment % U32) with _ | e
      · rw [HeapAllocator.Allocate_eq_none hlb]
        exact ⟨rfl, rfl⟩
      · exfalso
        obtain ⟨he, hae⟩ := HeapAllocator.lowerBound_some_mem hlb
        obtain ⟨c, hc, hpair⟩ := List.mem_map.mp (hfm.mem_iff.mp he)
        have hcmem : c ∈ s.blocks := List.mem_of_mem_filter hc
        have hcfree : c.isFree = true := by
          have := List.of_mem_filter hc
          simpa using this
        have hcsz : c.size = e.1 := congrArg Prod.fst hpair
        have := hall c hcmem hcfree
        omega
  refine ⟨hiff, fun hall => ?_⟩
  rw [(hiff.mpr hall).2]

/-- Witness for C4 amended: on a 1024-byte heap, a 2000-byte request aligns
to 2048, no free block fits, and the reverse direction of the amended
equivalence yields the sentinel with an unchanged state. -/
theorem allocate_fail_iff_amended_witness :
    (HeapAllocator.Allocate (HeapAllocator.initState 4 256 256) 2000).1 = U32 - 1 ∧
    (HeapAllocator.Allocate (HeapAllocator.initState 4 256 256) 2000).2 =
      HeapAllocator.initState 4 256 256 :=
  (allocate_fail_iff_amended (HeapAllocator.initState 4 256 256)
    (HeapAllocator.initState_inv 4 256 256) 2000).1.mpr (by decide)

/-- C1: best-fit selection. In any invariant-holding state, if some free
block can hold the aligned request (aligned size taken without wraparound,
which coincides with the stored 32-bit value because block sizes are below
2^32), then `Allocate` picks a free block whose size is minimal among all
free blocks that fit, marks exactly that block used, and returns its
offset. -/
theorem allocate_selects_best_fit (s : HeapState) (hInv : HeapAllocator.Inv s)
    (n : Nat) (b0 : Block) (hb0 : b0 ∈ s.blocks) (hb0f : b0.isFree = true)
    (hfit : AlignSize (n % U32) s.alignment ≤ b0.size) :
    ∃ c ∈ s.blocks, c.isFree = true ∧
      AlignSize (n % U32) s.alignment ≤ c.size ∧
      (∀ b ∈ s.blocks, b.isFree = true →
        AlignSize (n % U32) s.alignment ≤ b.size → c.size ≤ b.size) ∧
      (HeapAllocator.Allocate s n).1 = c.offset ∧
      ∃ c2 ∈ (HeapAllocator.Allocate s n).2.blocks,
        c2.id = c.id ∧ c2.offset = c.offset ∧ c2.isFree = false := by
  have huniq := hInv.2.2.2.1
  have hfm := hInv.2.2.2.2.2.1
  have hsorted := hInv.2.2.2.2.2.2.1
  have hb0lt : b0.size < U32 := by
    have := (HeapAllocator.isPart_bound hInv.2.1 b0 hb0).2
    have hA := hInv.1
    omega
  have haeq : AlignSize (n % U32) s.alignment % U32 = AlignSize (n % U32) s.alignment :=
    Nat.mod_eq_of_lt (Nat.lt_of_le_of_lt hfit hb0lt)
  have hmemfm : ∀ b ∈ s.blocks, b.isFree = true → (b.size, b.id) ∈ s.freeMap := by
    intro b hb hbf
    exact hfm.mem_iff.mpr (List.mem_map.mpr
      ⟨b, List.mem_filter.mpr ⟨hb, by simp [hbf]⟩, rfl⟩)
  rcases hlb : HeapAllocator.lowerBound s.freeMap
      (AlignSize (n % U32) s.alignment % U32) with _ | e
  · exfalso
    have := (HeapAllocator.lowerBound_none_iff.mp hlb) _ (hmemfm b0 hb0 hb0f)
    simp only [haeq] at this
    omega
  · obtain ⟨he, hae⟩ := HeapAllocator.lowerBound_some_mem hlb
    obtain ⟨c, hc, hpair⟩ := List.mem_map.mp (hfm.mem_iff.mp he)
    have hcmem : c ∈ s.blocks := List.mem_of_mem_filter hc
    have hcfree : c.isFree = true := by
      have := List.of_mem_filter hc
      simpa using this
    have hcsz : c.size = e.1 := congrArg Prod.fst hpair
    have hfb : HeapAllocator.findBlock s.blocks e.2 = some c :=
      HeapAllocator.findBlock_of_mem_nodup huniq hcmem (congrArg Prod.snd hpair)
    have hmin := HeapAllocator.lowerBound_min hsorted hlb
    refine ⟨c, hcmem, hcfree, ?_, ?_, ?_, ?_⟩
    · rw [haeq] at hae
      omega
    · intro b hb hbf hble
      have hbmem := hmemfm b hb hbf
      have := hmin _ hbmem (by simp only [haeq]; exact hble)
      simp only at this
      omega
    · rw [HeapAllocator.Allocate_eq_found hlb hfb]
      exact (HeapAllocator.allocateFound_result huniq hcmem
        (a := AlignSize (n % U32) s.alignment % U32)).1
    · rw [HeapAllocator.Allocate_eq_found hlb hfb]
      exact (HeapAllocator.allocateFound_result huniq hcmem
        (a := AlignSize (n % U32) s.alignment % U32)).2

/-- Witness for C1 at a heap with free blocks of sizes 256 and 512 and a
request aligning to 512: the selected block is the 512-byte one at offset
512, not the larger-than-needed... (sizes 256@0 free, 256@256 used,
512@512 free; request 300 aligns to 512, best fit is the 512 block). -/
theorem allocate_selects_best_fit_witness :
    ∃ c ∈ (runHeap 4 256 256
        [HeapOp.alloc 100, HeapOp.alloc 100, HeapOp.free 0]).blocks,
      c.isFree = true ∧
      AlignSize (300 % U32) (runHeap 4 256 256
        [HeapOp.alloc 100, HeapOp.alloc 100, HeapOp.free 0]).alignment ≤ c.size ∧
      (∀ b ∈ (runHeap 4 256 256
          [HeapOp.alloc 100, HeapOp.alloc 100, HeapOp.free 0]).blocks,
        b.isFree = true →
        AlignSize (300 % U32) (runHeap 4 256 256
          [HeapOp.alloc 100, HeapOp.alloc 100, HeapOp.free 0]).alignment ≤ b.size →
        c.size ≤ b.size) ∧
      (HeapAllocator.Allocate (runHeap 4 256 256
        [HeapOp.alloc 100, HeapOp.alloc 100, HeapOp.free 0]) 300).1 = c.offset ∧
      ∃ c2 ∈ (HeapAllocator.Allocate (runHeap 4 256 256
          [HeapOp.alloc 100, HeapOp.alloc 100, HeapOp.free 0]) 300).2.blocks,
        c2.id = c.id ∧ c2.offset = c.offset ∧ c2.isFree = false :=
  allocate_selects_best_fit
    (runHeap 4 256 256
      [HeapOp.alloc 100, HeapOp.alloc 100, HeapOp.free 0])
    (runHeap_inv 4 256 256
      [HeapOp.alloc 100, HeapOp.alloc 100, HeapOp.free 0])
    300 ⟨2, 512, 512, true⟩ (by decide) (by decide) (by decide)

/-- Computation of a full allocate-then-free round trip over the generic
fresh-allocator state shape (one free block covering the whole region),
assuming the aligned request fits. -/
theorem roundtrip_core {s0 : HeapState} {ne1 es1 al1 A : Nat}
    (hs : s0 = ⟨ne1, es1, al1, A, [⟨0, 0, A, true⟩], [(0, 0)], [(A, 0)], [], 1⟩)
    (hAU : A < U32) (n : Nat)
    (hfit : AlignSize (n % U32) al1 % U32 ≤ A) :
    HeapAllocator.GetStats (HeapAllocator.Free
        (HeapAllocator.Allocate s0 n).2 (HeapAllocator.Allocate s0 n).1) =
      ⟨ne1 * es1 % U32, 0, A, 0, 1⟩ := by
  subst hs
  have haU : AlignSize (n % U32) al1 % U32 < U32 := Nat.mod_lt _ HeapAllocator.U32_pos
  have hamod : AlignSize (n % U32) al1 % U32 % U32 = AlignSize (n % U32) al1 % U32 :=
    Nat.mod_eq_of_lt haU
  have hsum : AlignSize (n % U32) al1 % U32 + (A - AlignSize (n % U32) al1 % U32) = A :=
    Nat.add_sub_cancel' hfit
  have hAmod : A % U32 = A := Nat.mod_eq_of_lt hAU
  have hlb : HeapAllocator.lowerBound [(A, 0)] (AlignSize (n % U32) al1 % U32) =
      some (A, 0) := by
    simp [HeapAllocator.lowerBound, hfit]
  by_cases hsplit : AlignSize (n % U32) al1 % U32 < A
  · have h1 : HeapAllocator.Allocate
        (⟨ne1, es1, al1, A, [⟨0, 0, A, true⟩], [(0, 0)], [(A, 0)], [], 1⟩ : HeapState) n =
        (0, ⟨ne1, es1, al1, A,
          [⟨0, 0, AlignSize (n % U32) al1 % U32, false⟩,
           ⟨1, AlignSize (n % U32) al1 % U32, A - AlignSize (n % U32) al1 % U32, true⟩],
          HeapAllocator.offInsert [(0, 0)] (AlignSize (n % U32) al1 % U32) 1,
          [(A - AlignSize (n % U32) al1 % U32, 1)],
          [(0, ⟨0, AlignSize (n % U32) al1 % U32, 0⟩)], 2⟩) := by
      simp [HeapAllocator.Allocate, hlb, HeapAllocator.findBlock,
        HeapAllocator.allocateFound, hsplit, HeapAllocator.RemoveFromFreeMap,
        HeapAllocator.SplitBlock, HeapAllocator.emplaceFree, HeapAllocator.setIsFree,
        HeapAllocator.mapInsert, hamod]
    rw [h1]
    have h2 : HeapAllocator.Free
        (⟨ne1, es1, al1, A,
          [⟨0, 0, AlignSize (n % U32) al1 % U32, false⟩,
           ⟨1, AlignSize (n % U32) al1 % U32, A - AlignSize (n % U32) al1 % U32, true⟩],
          HeapAllocator.offInsert [(0, 0)] (AlignSize (n % U32) al1 % U32) 1,
          [(A - AlignSize (n % U32) al1 % U32, 1)],
          [(0, ⟨0, AlignSize (n % U32) al1 % U32, 0⟩)], 2⟩ : HeapState) 0 =
        ⟨ne1, es1, al1, A, [⟨0, 0, A, true⟩],
          HeapAllocator.offErase
            (HeapAllocator.offInsert [(0, 0)] (AlignSize (n % U32) al1 % U32) 1)
            (AlignSize (n % U32) al1 % U32),
          [(A, 0)], [], 2⟩ := by
      simp +decide [HeapAllocator.Free, U32, HeapAllocator.mapFind,
        HeapAllocator.freeFound, HeapAllocator.setIsFree,
        HeapAllocator.CoalesceAdjacentFreeBlocks, HeapAllocator.mergeNext,
        HeapAllocator.applyCoal, HeapAllocator.RemoveFromFreeMap,
        HeapAllocator.emplaceFree, HeapAllocator.mapErase]
      simp only [U32] at hfit hAU ⊢
      omega
    rw [h2]
    simp [HeapAllocator.GetStats, Nat.zero_max]
  · have ha : AlignSize (n % U32) al1 % U32 = A := Nat.le_antisymm hfit (Nat.not_lt.mp hsplit)
    have h1 : HeapAllocator.Allocate
        (⟨ne1, es1, al1, A, [⟨0, 0, A, true⟩], [(0, 0)], [(A, 0)], [], 1⟩ : HeapState) n =
        (0, ⟨ne1, es1, al1, A, [⟨0, 0, A, false⟩], [(0, 0)], [],
          [(0, ⟨0, AlignSize (n % U32) al1 % U32, 0⟩)], 1⟩) := by
      simp [HeapAllocator.Allocate, hlb, HeapAllocator.findBlock,
        HeapAllocator.allocateFound, hsplit, HeapAllocator.RemoveFromFreeMap,
        HeapAllocator.setIsFree, HeapAllocator.mapInsert]
    rw [h1]
    have h2 : HeapAllocator.Free
        (⟨ne1, es1, al1, A, [⟨0, 0, A, false⟩], [(0, 0)], [],
          [(0, ⟨0, AlignSize (n % U32) al1 % U32, 0⟩)], 1⟩ : HeapState) 0 =
        ⟨ne1, es1, al1, A, [⟨0, 0, A, true⟩], [(0, 0)], [(A, 0)], [], 1⟩ := by
      simp +decide [HeapAllocator.Free, U32, HeapAllocator.mapFind,
        HeapAllocator.freeFound, HeapAllocator.setIsFree,
        HeapAllocator.CoalesceAdjacentFreeBlocks, HeapAllocator.mergeNext,
        HeapAllocator.applyCoal, HeapAllocator.RemoveFromFreeMap,
        HeapAllocator.emplaceFree, HeapAllocator.mapErase]
    rw [h2]
    simp [HeapAllocator.GetStats, Nat.zero_max]

/-- C6: on a freshly initialized allocator, whenever an allocation succeeds,
immediately freeing the returned offset restores the stats to no used bytes,
a single free block, and a largest free block equal to the total aligned
size of the region. -/
theorem alloc_free_roundtrip (ne es al n : Nat)
    (hsucc : (HeapAllocator.Allocate (HeapAllocator.initState ne es al) n).1 ≠ U32 - 1) :
    (HeapAllocator.GetStats (HeapAllocator.Free
        (HeapAllocator.Allocate (HeapAllocator.initState ne es al) n).2
        (HeapAllocator.Allocate (HeapAllocator.initState ne es al) n).1)).usedSize = 0 ∧
    (HeapAllocator.GetStats (HeapAllocator.Free
        (HeapAllocator.Allocate (HeapAllocator.initState ne es al) n).2
        (HeapAllocator.Allocate (HeapAllocator.initState ne es al) n).1)).numFreeBlocks = 1 ∧
    (HeapAllocator.GetStats (HeapAllocator.Free
        (HeapAllocator.Allocate (HeapAllocator.initState ne es al) n).2
        (HeapAllocator.Allocate (HeapAllocator.initState ne es al) n).1)).largestFreeBlock =
      (HeapAllocator.initState ne es al).alignedSize := by
  have hs : HeapAllocator.initState ne es al =
      ⟨ne % U32, es % U32, al % U32,
        AlignSize ((ne % U32) * (es % U32)) (al % U32) % U32,
        [⟨0, 0, AlignSize ((ne % U32) * (es % U32)) (al % U32) % U32, true⟩],
        [(0, 0)],
        [(AlignSize ((ne % U32) * (es % U32)) (al % U32) % U32, 0)], [], 1⟩ := rfl
  have hAU : AlignSize ((ne % U32) * (es % U32)) (al % U32) % U32 < U32 :=
    Nat.mod_lt _ HeapAllocator.U32_pos
  have hfit : AlignSize (n % U32) (al % U32) % U32 ≤
      AlignSize ((ne % U32) * (es % U32)) (al % U32) % U32 := by
    by_contra hnf
    push_neg at hnf
    have hnf2 : ¬(AlignSize (n % U32) (al % U32) % U32 ≤
        AlignSize ((ne % U32) * (es % U32)) (al % U32) % U32) := Nat.not_le.mpr hnf
    have hlbnone : HeapAllocator.lowerBound (HeapAllocator.initState ne es al).freeMap
        (AlignSize (n % U32) (HeapAllocator.initState ne es al).alignment % U32) = none := by
      show HeapAllocator.lowerBound
        [(AlignSize ((ne % U32) * (es % U32)) (al % U32) % U32, 0)]
        (AlignSize (n % U32) (al % U32) % U32) = none
      simp [HeapAllocator.lowerBound, hnf2]
    rw [HeapAllocator.Allocate_eq_none hlbnone] at hsucc
    exact hsucc rfl
  have hmain := roundtrip_core hs hAU n hfit
  rw [hmain]
  exact ⟨rfl, rfl, rfl⟩

/-- Witness for C6 on a 1024-byte heap with a 100-byte request. -/
theorem alloc_free_roundtrip_witness :
    (HeapAllocator.GetStats (HeapAllocator.Free
        (HeapAllocator.Allocate (HeapAllocator.initState 4 256 256) 100).2
        (HeapAllocator.Allocate (HeapAllocator.initState 4 256 256) 100).1)).usedSize = 0 ∧
    (HeapAllocator.GetStats (HeapAllocator.Free
        (HeapAllocator.Allocate (HeapAllocator.initState 4 256 256) 100).2
        (HeapAllocator.Allocate (HeapAllocator.initState 4 256 256) 100).1)).numFreeBlocks = 1 ∧
    (HeapAllocator.GetStats (HeapAllocator.Free
        (HeapAllocator.Allocate (HeapAllocator.initState 4 256 256) 100).2
        (HeapAllocator.Allocate (HeapAllocator.initState 4 256 256) 100).1)).largestFreeBlock =
      (HeapAllocator.initState 4 256 256).alignedSize :=
  alloc_free_roundtrip 4 256 256 100 (by decide)

namespace HeapAllocator

/-- Shared setup for the coalescing cases: locating the freed block between
its two sequence neighbors, the partition adjacency facts, and the shape of
the freed state in terms of `CoalesceAdjacentFreeBlocks`. -/
theorem free_interior_setup {s : HeapState} {off : Nat} {info : AllocationInfo}
    {L1 L2 : List Block} {p b c : Block}
    (hInv : Inv s) (hsent : ¬off % U32 = U32 - 1)
    (hfind : mapFind s.allocations (off % U32) = some info)
    (hid : info.blockId = b.id)
    (hdec : s.blocks = L1 ++ p :: b :: c :: L2) :
    (Free s off).blocks =
      (CoalesceAdjacentFreeBlocks b.id
        ((L1 ++ [p]) ++ { b with isFree := true } :: c :: L2)).blocks ∧
    (Free s off).freeMap =
      applyCoal (CoalesceAdjacentFreeBlocks b.id
        ((L1 ++ [p]) ++ { b with isFree := true } :: c :: L2)) s.freeMap ∧
    (Free s off).allocations = mapErase s.allocations (off % U32) ∧
    p.offset + p.size = b.offset ∧
    b.offset + b.size = c.offset ∧
    c.offset + c.size ≤ s.alignedSize ∧
    (∀ x ∈ L1 ++ [p], x.id ≠ b.id) := by
  have hassoc : L1 ++ p :: b :: c :: L2 = (L1 ++ [p]) ++ b :: c :: L2 := by simp
  have hpart : isPart 0 ((L1 ++ [p]) ++ b :: c :: L2) s.alignedSize = true := by
    rw [← hassoc, ← hdec]
    exact hInv.2.1
  have huniq : (((L1 ++ [p]) ++ b :: c :: L2).map Block.id).Nodup := by
    rw [← hassoc, ← hdec]
    exact hInv.2.2.2.1
  have h1 : ∀ x ∈ L1 ++ [p], x.id ≠ b.id := fun x hx =>
    nodup_append_ne huniq hx (List.mem_cons_self _ _)
  have hset : setIsFree b.id true s.blocks =
      (L1 ++ [p]) ++ { b with isFree := true } :: c :: L2 := by
    rw [hdec, hassoc]
    exact setIsFree_decomp true h1 rfl
  have hfree : Free s off = freeFound s (off % U32) info := Free_eq_found hsent hfind
  have hpart0 : isPart 0 (L1 ++ p :: b :: c :: L2) s.alignedSize = true := by
    rw [hassoc]
    exact hpart
  have hadj1 : p.offset + p.size = b.offset :=
    isPart_adjacent (X := L1) (Z := c :: L2) (y := p) (z := b) hpart0
  have hadj2 : b.offset + b.size = c.offset :=
    isPart_adjacent (X := L1 ++ [p]) (Z := L2) (y := b) (z := c) hpart
  have hcb : c.offset + c.size ≤ s.alignedSize := by
    refine (isPart_bound hpart c ?_).2
    simp
  refine ⟨?_, ?_, ?_, hadj1, hadj2, hcb, h1⟩
  · rw [hfree]
    simp only [freeFound, hid, hset]
  · rw [hfree]
    simp only [freeFound, hid, hset]
  · rw [hfree]
    simp only [freeFound]

end HeapAllocator

/-- C3: coalescing on free.  For a live allocation whose block sits between a
previous and a next block in the ordered sequence: if both neighbors are
free, freeing collapses the three blocks into one free block whose size is
the sum of the three, removing both neighbors from the block sequence and
from the size index and inserting the merged block into the size index; if
only the previous neighbor is free, the freed block merges into it; if only
the next neighbor is free, it merges into the freed block; in every case the
allocation record is erased. -/
theorem free_coalesces_adjacent :
    (∀ (s : HeapState) (off : Nat) (info : AllocationInfo) (L1 L2 : List Block)
      (p b c : Block), HeapAllocator.Inv s → ¬off % U32 = U32 - 1 →
      HeapAllocator.mapFind s.allocations (off % U32) = some info →
      info.blockId = b.id → s.blocks = L1 ++ p :: b :: c :: L2 →
      p.isFree = true → c.isFree = true →
      (HeapAllocator.Free s off).blocks =
        L1 ++ (⟨p.id, p.offset, p.size + b.size + c.size, true⟩ : Block) :: L2 ∧
      (HeapAllocator.Free s off).freeMap =
        HeapAllocator.emplaceFree
          (HeapAllocator.RemoveFromFreeMap
            (HeapAllocator.RemoveFromFreeMap s.freeMap p.size p.id) c.size c.id)
          (p.size + b.size + c.size) p.id ∧
      (HeapAllocator.Free s off).allocations =
        HeapAllocator.mapErase s.allocations (off % U32)) ∧
    (∀ (s : HeapState) (off : Nat) (info : AllocationInfo) (L1 L2 : List Block)
      (p b c : Block), HeapAllocator.Inv s → ¬off % U32 = U32 - 1 →
      HeapAllocator.mapFind s.allocations (off % U32) = some info →
      info.blockId = b.id → s.blocks = L1 ++ p :: b :: c :: L2 →
      p.isFree = true → c.isFree = false →
      (HeapAllocator.Free s off).blocks =
        L1 ++ (⟨p.id, p.offset, p.size + b.size, true⟩ : Block) :: c :: L2 ∧
      (HeapAllocator.Free s off).freeMap =
        HeapAllocator.emplaceFree
          (HeapAllocator.RemoveFromFreeMap s.freeMap p.size p.id)
          (p.size + b.size) p.id ∧
      (HeapAllocator.Free s off).allocations =
        HeapAllocator.mapErase s.allocations (off % U32)) ∧
    (∀ (s : HeapState) (off : Nat) (info : AllocationInfo) (L1 L2 : List Block)
      (p b c : Block), HeapAllocator.Inv s → ¬off % U32 = U32 - 1 →
      HeapAllocator.mapFind s.allocations (off % U32) = some info →
      info.blockId = b.id → s.blocks = L1 ++ p :: b :: c :: L2 →
      p.isFree = false → c.isFree = true →
      (HeapAllocator.Free s off).blocks =
        L1 ++ p :: (⟨b.id, b.offset, b.size + c.size, true⟩ : Block) :: L2 ∧
      (HeapAllocator.Free s off).freeMap =
        HeapAllocator.emplaceFree
          (HeapAllocator.RemoveFromFreeMap s.freeMap c.size c.id)
          (b.size + c.size) b.id ∧
      (HeapAllocator.Free s off).allocations =
        HeapAllocator.mapErase s.allocations (off % U32)) := by
  refine ⟨?_, ?_, ?_⟩
  · intro s off info L1 L2 p b c hInv hsent hfind hid hdec hp hcf
    obtain ⟨hbl, hfm, hal, hadj1, hadj2, hcb, h1⟩ :=
      HeapAllocator.free_interior_setup hInv hsent hfind hid hdec
    have hA := hInv.1
    have hco := @HeapAllocator.CoalesceAdjacentFreeBlocks_decomp
      (L1 ++ [p]) (c :: L2) { b with isFree := true } _ h1 rfl
    have hgl : (L1 ++ [p]).getLast? = some p := by simp
    simp only [hgl] at hco
    have hofflt : b.offset < U32 := by omega
    have hcond1 : (p.isFree &&
        ((p.offset + p.size) % U32 == ({ b with isFree := true } : Block).offset)) = true := by
      simp [hp, hadj1, Nat.mod_eq_of_lt hofflt]
    simp only [hcond1, if_true] at hco
    have hps : (p.size + ({ b with isFree := true } : Block).size) % U32 = p.size + b.size := by
      show (p.size + b.size) % U32 = p.size + b.size
      exact Nat.mod_eq_of_lt (by omega)
    have hcond2 : (c.isFree &&
        ((({ p with size := (p.size + ({ b with isFree := true } : Block).size) % U32 } :
            Block).offset +
          ({ p with size := (p.size + ({ b with isFree := true } : Block).size) % U32 } :
            Block).size) % U32 == c.offset)) = true := by
      show (c.isFree && ((p.offset + (p.size + b.size) % U32) % U32 == c.offset)) = true
      rw [hps]
      have hsum : p.offset + (p.size + b.size) = c.offset := by omega
      have hclt : c.offset < U32 := by omega
      simp [hcf, hsum, Nat.mod_eq_of_lt hclt]
    rw [HeapAllocator.mergeNext_cons_true hcond2] at hco
    have hS : ((p.size + ({ b with isFree := true } : Block).size) % U32 + c.size) % U32 =
        p.size + b.size + c.size := by
      show ((p.size + b.size) % U32 + c.size) % U32 = p.size + b.size + c.size
      rw [hps]
      exact Nat.mod_eq_of_lt (by omega)
    have hdl : (L1 ++ [p]).dropLast = L1 := by simp
    refine ⟨?_, ?_, hal⟩
    · rw [hbl, hco]
      show (L1 ++ [p]).dropLast ++
          ({ p with size := ((p.size + ({ b with isFree := true } : Block).size) % U32 +
            c.size) % U32 } : Block) :: L2 =
        L1 ++ (⟨p.id, p.offset, p.size + b.size + c.size, true⟩ : Block) :: L2
      rw [hS, hdl]
      have hpe : ({ p with size := p.size + b.size + c.size } : Block) =
          ⟨p.id, p.offset, p.size + b.size + c.size, true⟩ := by
        obtain ⟨pid, poff, psz, pf⟩ := p
        replace hp : pf = true := hp
        subst hp
        rfl
      rw [hpe]
    · rw [hfm, hco]
      show HeapAllocator.emplaceFree
          (HeapAllocator.RemoveFromFreeMap
            (HeapAllocator.RemoveFromFreeMap s.freeMap p.size p.id) c.size c.id)
          (((p.size + ({ b with isFree := true } : Block).size) % U32 + c.size) % U32)
          p.id =
        HeapAllocator.emplaceFree
          (HeapAllocator.RemoveFromFreeMap
            (HeapAllocator.RemoveFromFreeMap s.freeMap p.size p.id) c.size c.id)
          (p.size + b.size + c.size) p.id
      rw [hS]
  · intro s off info L1 L2 p b c hInv hsent hfind hid hdec hp hcf
    obtain ⟨hbl, hfm, hal, hadj1, hadj2, hcb, h1⟩ :=
      HeapAllocator.free_interior_setup hInv hsent hfind hid hdec
    have hA := hInv.1
    have hco := @HeapAllocator.CoalesceAdjacentFreeBlocks_decomp
      (L1 ++ [p]) (c :: L2) { b with isFree := true } _ h1 rfl
    have hgl : (L1 ++ [p]).getLast? = some p := by simp
    simp only [hgl] at hco
    have hofflt : b.offset < U32 := by omega
    have hcond1 : (p.isFree &&
        ((p.offset + p.size) % U32 == ({ b with isFree := true } : Block).offset)) = true := by
      simp [hp, hadj1, Nat.mod_eq_of_lt hofflt]
    simp only [hcond1, if_true] at hco
    have hcond2 : (c.isFree &&
        ((({ p with size := (p.size + ({ b with isFree := true } : Block).size) % U32 } :
            Block).offset +
          ({ p with size := (p.size + ({ b with isFree := true } : Block).size) % U32 } :
            Block).size) % U32 == c.offset)) = false := by
      show (c.isFree && ((p.offset + (p.size + b.size) % U32) % U32 == c.offset)) = false
      simp [hcf]
    rw [HeapAllocator.mergeNext_cons_false hcond2] at hco
    have hps : (p.size + ({ b with isFree := true } : Block).size) % U32 = p.size + b.size := by
      show (p.size + b.size) % U32 = p.size + b.size
      exact Nat.mod_eq_of_lt (by omega)
    have hdl : (L1 ++ [p]).dropLast = L1 := by simp
    refine ⟨?_, ?_, hal⟩
    · rw [hbl, hco]
      show (L1 ++ [p]).dropLast ++
          ({ p with size := (p.size + ({ b with isFree := true } : Block).size) % U32 } :
            Block) :: c :: L2 =
        L1 ++ (⟨p.id, p.offset, p.size + b.size, true⟩ : Block) :: c :: L2
      rw [hps, hdl]
      have hpe : ({ p with size := p.size + b.size } : Block) =
          ⟨p.id, p.offset, p.size + b.size, true⟩ := by
        obtain ⟨pid, poff, psz, pf⟩ := p
        replace hp : pf = true := hp
        subst hp
        rfl
      rw [hpe]
    · rw [hfm, hco]
      show HeapAllocator.emplaceFree
          (HeapAllocator.RemoveFromFreeMap s.freeMap p.size p.id)
          ((p.size + ({ b with isFree := true } : Block).size) % U32) p.id =
        HeapAllocator.emplaceFree
          (HeapAllocator.RemoveFromFreeMap s.freeMap p.size p.id)
          (p.size + b.size) p.id
      rw [hps]
  · intro s off info L1 L2 p b c hInv hsent hfind hid hdec hpf hcf
    obtain ⟨hbl, hfm, hal, hadj1, hadj2, hcb, h1⟩ :=
      HeapAllocator.free_interior_setup hInv hsent hfind hid hdec
    have hA := hInv.1
    have hco := @HeapAllocator.CoalesceAdjacentFreeBlocks_decomp
      (L1 ++ [p]) (c :: L2) { b with isFree := true } _ h1 rfl
    have hgl : (L1 ++ [p]).getLast? = some p := by simp
    simp only [hgl] at hco
    have hcond1 : (p.isFree &&
        ((p.offset + p.size) % U32 == ({ b with isFree := true } : Block).offset)) = false := by
      simp [hpf]
    simp only [hcond1, Bool.false_eq_true, if_false] at hco
    have hclt : c.offset < U32 := by omega
    have hcond2 : (c.isFree &&
        ((({ b with isFree := true } : Block).offset +
          ({ b with isFree := true } : Block).size) % U32 == c.offset)) = true := by
      show (c.isFree && ((b.offset + b.size) % U32 == c.offset)) = true
      simp [hcf, hadj2, Nat.mod_eq_of_lt hclt]
    rw [HeapAllocator.mergeNext_cons_true hcond2] at hco
    have hS3 : (b.size + c.size) % U32 = b.size + c.size :=
      Nat.mod_eq_of_lt (by omega)
    refine ⟨?_, ?_, hal⟩
    · rw [hbl, hco]
      show (L1 ++ [p]) ++
          (⟨b.id, b.offset, (b.size + c.size) % U32, true⟩ : Block) :: L2 =
        L1 ++ p :: (⟨b.id, b.offset, b.size + c.size, true⟩ : Block) :: L2
      rw [hS3]
      simp
    · rw [hfm, hco]
      show HeapAllocator.emplaceFree
          (HeapAllocator.RemoveFromFreeMap s.freeMap c.size c.id)
          ((b.size + c.size) % U32) b.id =
        HeapAllocator.emplaceFree
          (HeapAllocator.RemoveFromFreeMap s.freeMap c.size c.id)
          (b.size + c.size) b.id
      rw [hS3]

/-- Witness for C3: the spec scenario — blocks free 256@0, used 256@256,
free 512@512; freeing offset 256 merges with both neighbors into a single
free block 1024@0. -/
theorem free_coalesces_adjacent_witness :
    (HeapAllocator.Free
        (runHeap 4 256 256 [HeapOp.alloc 100, HeapOp.alloc 100, HeapOp.free 0])
        256).blocks = [(⟨0, 0, 1024, true⟩ : Block)] ∧
    (HeapAllocator.Free
        (runHeap 4 256 256 [HeapOp.alloc 100, HeapOp.alloc 100, HeapOp.free 0])
        256).freeMap =
      HeapAllocator.emplaceFree
        (HeapAllocator.RemoveFromFreeMap
          (HeapAllocator.RemoveFromFreeMap
            (runHeap 4 256 256 [HeapOp.alloc 100, HeapOp.alloc 100, HeapOp.free 0]).freeMap
            256 0) 512 2) 1024 0 ∧
    (HeapAllocator.Free
        (runHeap 4 256 256 [HeapOp.alloc 100, HeapOp.alloc 100, HeapOp.free 0])
        256).allocations =
      HeapAllocator.mapErase
        (runHeap 4 256 256 [HeapOp.alloc 100, HeapOp.alloc 100, HeapOp.free 0]).allocations
        (256 % U32) :=
  free_coalesces_adjacent.1
    (runHeap 4 256 256 [HeapOp.alloc 100, HeapOp.alloc 100, HeapOp.free 0])
    256 ⟨256, 256, 1⟩ [] [] ⟨0, 0, 256, true⟩ ⟨1, 256, 256, false⟩ ⟨2, 512, 512, true⟩
    (runHeap_inv 4 256 256 [HeapOp.alloc 100, HeapOp.alloc 100, HeapOp.free 0])
    (by decide) (by decide) rfl (by decide) rfl rfl
